import Mathlib

/-!
Shallow embedding of the decision-execution and risk kernel of
`ai_trader_v2.py` (and, for the key pool / scale-out planner, the
corresponding classes of `akoudai_kimi_combined.py`).

Modelling conventions:
* Python floats are modelled as rationals (`ℚ`); lot counts as integers (`ℤ`).
* Python `int(x)` truncates toward zero; this is `truncQ`.
* `Decimal.quantize(..., ROUND_HALF_UP)` on a positive price is modelled as
  round-half-up to the tick grid (`roundHalfUpQ`).
* Fallible paths return `Option` (`none` = the function `return`s without
  placing an order); emitted venue calls (`buy`, `short`,
  `send_target_order`) are collected in a list of `OrderAct`.
* Dictionary fields that may be absent are `Option`; Python's `x or d`
  fallback on a possibly-`None` field is `Option.getD`.
-/

namespace AITrader

/-- Python `int()` truncation toward zero on a rational. -/
def truncQ (q : ℚ) : ℤ := if 0 ≤ q then ⌊q⌋ else ⌈q⌉

/-- Round half up to the nearest integer (adequate for the positive prices
the kernel handles). -/
def roundHalfUpQ (q : ℚ) : ℤ := ⌊q + 1/2⌋

/-- The `1e-9` guard the sizer puts under divisors. -/
def epsQ : ℚ := 1 / 1000000000

/-- Venue order primitives emitted by the kernel (fire and forget). -/
inductive OrderAct where
  | buy (price : ℚ) (vol : ℤ)
  | short (price : ℚ) (vol : ℤ)
  | sell (price : ℚ) (vol : ℤ)
  | cover (price : ℚ) (vol : ℤ)
  | targetPos (target : ℤ)
deriving DecidableEq, Repr

/-- The stop/target pair stored into `st['ai_decision']` after a fill. -/
structure StoredDecision where
  stopLoss : Option ℚ
  profitTarget : Option ℚ
deriving DecidableEq, Repr

/-- Per-symbol mutable state (`context.state[sym]`), restricted to the
fields the execution path and the risk heartbeat read or write. -/
structure SymState where
  localPos : ℤ
  avgPrice : ℚ
  realizedPnl : ℚ
  aiDecision : Option StoredDecision
  currentPlanId : Option ℕ
  lastEntryPx : Option ℚ
  lastExitPrice : Option ℚ
  lastExitTime : Option ℚ
  lastOrderPrice : Option ℚ
  lastOrderTs : Option ℚ
  reentryUntil : Option ℚ
  cooldownUntil : Option ℚ
deriving DecidableEq, Repr

/-- The oracle's trade plan (`decision['trade_plan']`). -/
structure TradePlan where
  positionSizePct : Option ℚ
  stopLoss : Option ℚ
  profitTarget1 : Option ℚ
  planId : Option ℕ
  orderPriceStyle : String
deriving DecidableEq, Repr

/-- An empty plan (`plan.get` falls back over `{}`). -/
def TradePlan.default : TradePlan :=
  { positionSizePct := none, stopLoss := none, profitTarget1 := none
    planId := none, orderPriceStyle := "best" }

/-- An oracle decision. -/
structure Decision where
  signal : String
  confidence : Option ℚ
  tradePlan : Option TradePlan
  cooldownMinutes : Option ℚ
deriving DecidableEq, Repr

/-- `TRADER_RULEBOOK`. -/
structure Rulebook where
  maxPositionPct : ℚ
  mandatoryStopLoss : Bool
  minRewardRiskRatio : ℚ
deriving DecidableEq, Repr

/-- The concrete rulebook constants of `ai_trader_v2.py`. -/
def TRADER_RULEBOOK : Rulebook :=
  { maxPositionPct := 3/5, mandatoryStopLoss := true, minRewardRiskRatio := 3/2 }

/-- Configuration and market-environment inputs of one execution pass:
`Config` constants, contract data from `PlatformAdapter`, the clock, and
the `last_market_data` fields the path reads. -/
structure Env where
  now : ℚ
  tick : ℚ
  mult : ℚ
  mrLong : ℚ
  mrShort : ℚ
  minVol : ℤ
  initCash : ℚ
  buffer : ℚ
  minGR : ℚ
  minStopTicks : ℤ
  minStopAtrMult : ℚ
  reentrySecs : ℚ
  minConfidence : ℚ
  adaptiveSizePct : ℚ
  gapTicks : ℤ
  atr : ℚ
  rb : Rulebook
  singleSide : Bool
  allowPyramid : Bool
  liqThin : Bool
  spreadWide : Bool
  bid : Option ℚ
  ask : Option ℚ
  midPx : Option ℚ
deriving DecidableEq, Repr

/-- Signal alias normalisation performed at the top of `execute_decision`.
The `strip().lower()` canonicalisation is taken as given: signals are
modelled in canonical lower-case, whitespace-free form. -/
def normalizeSignal (raw : String) : String :=
  if raw = "买" ∨ raw = "买入" ∨ raw = "long" then "buy"
  else if raw = "卖" ∨ raw = "卖出" ∨ raw = "short" then "sell"
  else if raw = "平" ∨ raw = "平仓" ∨ raw = "exit" then "close"
  else raw

/-- `estimate_account`: local equity / available-funds / used-margin
estimate from position state and the current price. -/
structure Account where
  equity : ℚ
  available : ℚ
  margin : ℚ
deriving DecidableEq, Repr

/-- `estimate_account(context, price, state)`. -/
def estimateAccount (env : Env) (price : ℚ) (st : SymState) : Account :=
  let pos := st.localPos
  let floatPnl : ℚ :=
    if 0 < pos then (price - st.avgPrice) * |pos| * env.mult
    else if pos < 0 then (st.avgPrice - price) * |pos| * env.mult
    else 0
  let equity := env.initCash + st.realizedPnl + floatPnl
  let mr := if 0 ≤ pos then env.mrLong else env.mrShort
  let usedMargin := |pos| * price * env.mult * max (1/100) mr
  { equity := equity, available := max 0 (equity - usedMargin), margin := usedMargin }

/-- `is_ai_insane(context, ai_decision, current_price, state)`: the sanity
fuse.  A `buy`/`sell` decision with an absent stop trips either through the
mandatory-stop check or through the failing `float(None)` conversion. -/
def is_ai_insane (rb : Rulebook) (d : Decision) (px : ℚ) : Bool :=
  let sig := d.signal
  if sig = "buy" ∨ sig = "sell" then
    let plan := d.tradePlan.getD TradePlan.default
    let sizePct := plan.positionSizePct.getD 0
    if sizePct ≤ 0 ∨ rb.maxPositionPct < sizePct then true
    else
      match plan.stopLoss with
      | none => true
      | some sl =>
        if sig = "buy" ∧ px ≤ sl then true
        else if sig = "sell" ∧ sl ≤ px then true
        else
          match plan.profitTarget1 with
          | none => false
          | some tgt =>
            decide (|tgt - px| / max (1/1000000) |px - sl| < rb.minRewardRiskRatio)
  else false

/-- `_normalize_price`: snap to the tick grid rounding half-up
(tick falls back to `0.01` when not positive). -/
def normalizePrice (p : ℚ) (tick : ℚ) : ℚ :=
  let tk := if 0 < tick then tick else 1/100
  (roundHalfUpQ (p / tk) : ℚ) * tk

/-- `_align_price`: ceil to the grid for `buy`/`cover`, floor for the rest. -/
def alignPrice (p : ℚ) (isBuySide : Bool) (tick : ℚ) : ℚ :=
  if 0 < tick then
    if isBuySide then (⌈p / tick⌉ : ℚ) * tick else (⌊p / tick⌋ : ℚ) * tick
  else p

/-- `_choose_price` inside `execute_decision`. -/
def choosePrice (style : String) (isBuySide : Bool)
    (bid ask mid last : ℚ) : ℚ :=
  if style = "mid" then mid
  else if style = "market" then last
  else if isBuySide then ask else bid

/-- Stop-loss guard for a long entry (`execute_decision`, buy branch):
widen the oracle risk distance to the minimum gap, rebase below entry,
floor to the tick grid. -/
def guardStopBuy (orderPrice slAi atr tick : ℚ) (minTicks : ℤ) (atrMult : ℚ) : ℚ :=
  let minGap := max ((minTicks : ℚ) * tick) (atr * atrMult)
  let rAi := max 0 (orderPrice - slAi)
  let rNew := max rAi minGap
  let sl := orderPrice - rNew
  if 0 < tick then (⌊sl / tick⌋ : ℚ) * tick else sl

/-- Stop-loss guard for a short entry (sell branch): mirror image,
ceiled to the tick grid. -/
def guardStopSell (orderPrice slAi atr tick : ℚ) (minTicks : ℤ) (atrMult : ℚ) : ℚ :=
  let minGap := max ((minTicks : ℚ) * tick) (atr * atrMult)
  let rAi := max 0 (slAi - orderPrice)
  let rNew := max rAi minGap
  let sl := orderPrice + rNew
  if 0 < tick then (⌈sl / tick⌉ : ℚ) * tick else sl

/-- Inputs of the buy/sell sizing-and-guard block of `execute_decision`
(the decision has already passed the fuse, confidence, reentry and
single-side gates, and the order price has been chosen and aligned). -/
structure SizeParams where
  equity : ℚ
  available : ℚ
  mult : ℚ
  mr : ℚ
  minVol : ℤ
  buffer : ℚ
  minGR : ℚ
  tick : ℚ
  minStopTicks : ℤ
  minStopAtrMult : ℚ
  atr : ℚ
  allowPyramid : Bool
  posNow : ℤ
  orderPrice : ℚ
  sizeEff : ℚ
  slAi : Option ℚ
deriving DecidableEq, Repr

/-- `need_min_per_lot`: buffered margin requirement per lot. -/
def needMinPerLot (p : SizeParams) : ℚ :=
  p.orderPrice * p.mult * max (1/100) p.mr * p.buffer

/-- `max_lots_by_margin = int(available / max(1e-9, need)) if need > 0 else 0`. -/
def lotsByAvailable (p : SizeParams) : ℤ :=
  if 0 < needMinPerLot p then truncQ (p.available / max epsQ (needMinPerLot p)) else 0

/-- `int(lots_target_budget)`: budget-derived lot count before the
minimum-volume bump. -/
def lotsBudget (p : SizeParams) : ℤ :=
  truncQ (p.equity * p.sizeEff / max epsQ (needMinPerLot p))

/-- `lots_target = max(min_vol, int(lots_target_budget))`. -/
def lotsTarget (p : SizeParams) : ℤ := max p.minVol (lotsBudget p)

/-- Result of a successful buy/sell sizing pass. -/
structure SizeResult where
  vol : ℤ
  price : ℚ
  stop : Option ℚ
  marginPost : ℚ
deriving DecidableEq, Repr

/-- The minimum-volume guard (`if vol < min_vol:` block): reject when
available funds cannot cover the venue minimum, bump the volume up to the
minimum when the budget target was below it. -/
def volGuard (p : SizeParams) (vol0 : ℤ) : Option ℤ :=
  if vol0 < p.minVol then
    if lotsByAvailable p < p.minVol then none
    else if lotsTarget p < p.minVol then some p.minVol else some vol0
  else some vol0

/-- Volume selection of the buy branch: pyramiding check, incremental
target for an existing long, plain `min` of the two lot caps from flat,
then the minimum-volume guard. -/
def sizeVolBuy (p : SizeParams) : Option ℤ :=
  if 0 < p.posNow ∧ ¬ p.allowPyramid then none
  else if 0 < p.posNow then
    if lotsTarget p ≤ |p.posNow| then none
    else volGuard p (max 0 (min (lotsByAvailable p) (lotsTarget p) - |p.posNow|))
  else volGuard p (min (lotsByAvailable p) (lotsTarget p))

/-- Volume selection of the sell branch (pyramiding onto a short). -/
def sizeVolSell (p : SizeParams) : Option ℤ :=
  if p.posNow < 0 ∧ ¬ p.allowPyramid then none
  else if p.posNow < 0 then
    if lotsTarget p ≤ |p.posNow| then none
    else volGuard p (max 0 (min (lotsByAvailable p) (lotsTarget p) - |p.posNow|))
  else volGuard p (min (lotsByAvailable p) (lotsTarget p))

/-- The buy branch of `execute_decision` from the notional check down to
the order call: sizing, minimum-volume correction, guarantee-ratio check
and stop-loss guard.  `none` models the rejecting `return`s. -/
def execBuy (p : SizeParams) : Option SizeResult :=
  if p.orderPrice * p.mult ≤ 0 then none
  else
    match sizeVolBuy p with
    | none => none
    | some vol =>
      let marginPost := p.equity - p.available + (vol : ℚ) * (p.orderPrice * p.mult * max (1/100) p.mr)
      if (if 0 < marginPost then p.equity / marginPost else 999) < p.minGR then none
      else
        some { vol := vol, price := p.orderPrice
               stop := p.slAi.map (fun s =>
                 guardStopBuy p.orderPrice s p.atr p.tick p.minStopTicks p.minStopAtrMult)
               marginPost := marginPost }

/-- The sell branch, mirroring `execBuy` for a short entry
(pyramiding on a short position, stop guard above the entry). -/
def execSell (p : SizeParams) : Option SizeResult :=
  if p.orderPrice * p.mult ≤ 0 then none
  else
    match sizeVolSell p with
    | none => none
    | some vol =>
      let marginPost := p.equity - p.available + (vol : ℚ) * (p.orderPrice * p.mult * max (1/100) p.mr)
      if (if 0 < marginPost then p.equity / marginPost else 999) < p.minGR then none
      else
        some { vol := vol, price := p.orderPrice
               stop := p.slAi.map (fun s =>
                 guardStopSell p.orderPrice s p.atr p.tick p.minStopTicks p.minStopAtrMult)
               marginPost := marginPost }

/-- The state writes after a successful `buy(...)` call. -/
def applyOpenLong (env : Env) (st : SymState) (plan : TradePlan)
    (cdMin : ℚ) (r : SizeResult) : SymState :=
  { st with
    avgPrice := r.price
    localPos := st.localPos + r.vol
    currentPlanId := plan.planId
    lastEntryPx := some r.price
    lastOrderPrice := some r.price
    lastOrderTs := some env.now
    aiDecision := some { stopLoss := r.stop, profitTarget := plan.profitTarget1 }
    cooldownUntil := if 0 < cdMin then some (env.now + cdMin * 60) else st.cooldownUntil }

/-- The state writes after a successful `short(...)` call. -/
def applyOpenShort (env : Env) (st : SymState) (plan : TradePlan)
    (cdMin : ℚ) (r : SizeResult) : SymState :=
  { st with
    avgPrice := r.price
    localPos := st.localPos - r.vol
    currentPlanId := plan.planId
    lastEntryPx := some r.price
    lastOrderPrice := some r.price
    lastOrderTs := some env.now
    aiDecision := some { stopLoss := r.stop, profitTarget := plan.profitTarget1 }
    cooldownUntil := if 0 < cdMin then some (env.now + cdMin * 60) else st.cooldownUntil }

/-- Build the `SizeParams` for one direction from the environment, the
account estimate and the effective fractional size. -/
def mkSizeParams (env : Env) (acc : Account) (posNow : ℤ)
    (orderPrice sizeEff : ℚ) (mr : ℚ) (slAi : Option ℚ) : SizeParams :=
  { equity := acc.equity, available := acc.available, mult := env.mult
    mr := mr, minVol := env.minVol, buffer := env.buffer, minGR := env.minGR
    tick := env.tick, minStopTicks := env.minStopTicks
    minStopAtrMult := env.minStopAtrMult, atr := env.atr
    allowPyramid := env.allowPyramid, posNow := posNow
    orderPrice := orderPrice, sizeEff := sizeEff, slAi := slAi }

/-- The reentry-cooldown gate: a new entry from flat is blocked while
`now < reentry_until`. -/
def reentryBlocked (st : SymState) (now : ℚ) : Bool :=
  match st.reentryUntil with
  | some r => decide (now < r)
  | none => false

/-- The minimum price-gap gate against the last exit (or entry) price. -/
def gapBlocked (st : SymState) (lastPrice : ℚ) (gapTicks : ℤ) (tick : ℚ) : Bool :=
  match st.lastExitPrice.orElse (fun _ => st.lastEntryPx) with
  | some ref => decide (|lastPrice - ref| < (gapTicks : ℚ) * tick)
  | none => false

/-- The size-backfill step of `execute_decision`: a `buy`/`sell` decision
whose fractional size is missing or `<= 0` gets the adaptive default,
clamped to the rulebook maximum. -/
def effectivePlan (env : Env) (d : Decision) : TradePlan :=
  let s := normalizeSignal d.signal
  let plan0 := d.tradePlan.getD TradePlan.default
  if (s = "buy" ∨ s = "sell") ∧ plan0.positionSizePct.getD 0 ≤ 0 then
    { plan0 with positionSizePct := some (min env.adaptiveSizePct env.rb.maxPositionPct) }
  else plan0

/-- `size_pct_eff`: the requested fraction after the thin-liquidity and
wide-spread downgrades and the rulebook cap. -/
def effectiveSizePct (env : Env) (sizePct : ℚ) : ℚ :=
  let s1 := if env.liqThin then min sizePct (3/10) else sizePct
  let s2 := if env.spreadWide then min s1 (3/10) else s1
  min s2 env.rb.maxPositionPct

/-- Chosen, normalised and aligned order price for one direction. -/
def orderPriceFor (env : Env) (plan : TradePlan) (isBuySide : Bool)
    (lastPrice : ℚ) : ℚ :=
  let bid := env.bid.getD lastPrice
  let ask := env.ask.getD lastPrice
  let mid := env.midPx.getD ((bid + ask) / 2)
  alignPrice (normalizePrice (choosePrice plan.orderPriceStyle isBuySide bid ask mid lastPrice) env.tick)
    isBuySide env.tick

/-- Assembled sizing inputs for one direction of `execute_decision`. -/
def sizeParamsFor (env : Env) (st : SymState) (d : Decision)
    (isBuySide : Bool) (lastPrice : ℚ) : SizeParams :=
  let plan := effectivePlan env d
  let acc := estimateAccount env lastPrice st
  mkSizeParams env acc st.localPos (orderPriceFor env plan isBuySide lastPrice)
    (effectiveSizePct env (plan.positionSizePct.getD 0))
    (if isBuySide then env.mrLong else env.mrShort) plan.stopLoss

/-- The state writes of the `close` branch (`send_target_order(symbol, 0)`
plus exit bookkeeping and the reentry/cooldown timers). -/
def applyClose (env : Env) (st : SymState) (lastPrice cdMin : ℚ) : SymState :=
  { st with
    localPos := 0
    avgPrice := 0
    lastExitPrice := some lastPrice
    lastExitTime := some env.now
    reentryUntil := some (env.now + env.reentrySecs)
    cooldownUntil := if 0 < cdMin then some (env.now + cdMin * 60) else st.cooldownUntil }

/-- `TradeExecutor.execute_decision`: signal normalisation, size backfill,
sanity fuse, confidence gate, reentry/cooldown gate, single-side mode,
price selection and the buy / sell / close branches.  Returns the emitted
order actions and the updated per-symbol state. -/
def execute_decision (env : Env) (st : SymState) (d : Decision)
    (lastPrice : ℚ) : List OrderAct × SymState :=
  let s := normalizeSignal d.signal
  let plan1 := effectivePlan env d
  let d1 : Decision := { d with signal := s, tradePlan := some plan1 }
  if is_ai_insane env.rb d1 lastPrice then ([], st)
  else
    let cdMin := d.cooldownMinutes.getD 0
    if d.confidence.getD 0 < env.minConfidence then ([], st)
    else
      let posNow := st.localPos
      if (s = "buy" ∨ s = "sell") ∧ posNow = 0 ∧ reentryBlocked st env.now then ([], st)
      else if (s = "buy" ∨ s = "sell") ∧ posNow = 0 ∧ 0 < env.gapTicks ∧ 0 < env.tick ∧
         gapBlocked st lastPrice env.gapTicks env.tick then ([], st)
      else if env.singleSide ∧ s = "sell" ∧ 0 < posNow then
        ([OrderAct.targetPos 0], { st with currentPlanId := none })
      else if env.singleSide ∧ s = "buy" ∧ posNow < 0 then
        ([OrderAct.targetPos 0], { st with currentPlanId := none })
      else if s = "buy" then
        match execBuy (sizeParamsFor env st d true lastPrice) with
        | none => ([], st)
        | some r => ([OrderAct.buy r.price r.vol], applyOpenLong env st plan1 cdMin r)
      else if s = "sell" then
        match execSell (sizeParamsFor env st d false lastPrice) with
        | none => ([], st)
        | some r => ([OrderAct.short r.price r.vol], applyOpenShort env st plan1 cdMin r)
      else if s = "close" then
        ([OrderAct.targetPos 0], applyClose env st lastPrice cdMin)
      else ([], st)

/-- The stop price the heartbeat reads from the stored decision
(`st.get('ai_decision')`, then `.get('stop_loss')`). -/
def storedStop (st : SymState) : Option ℚ :=
  match st.aiDecision with
  | some a => a.stopLoss
  | none => none

/-- Result of one `_risk_heartbeat` pass: emitted orders, updated state
and the `context.trading_allowed` flag. -/
structure HeartbeatResult where
  orders : List OrderAct
  st : SymState
  tradingAllowed : Bool
deriving DecidableEq, Repr

/-- `_risk_heartbeat(context, sym, bar)` of `ai_trader_v2.py`.
`forceCloseReached` abstracts the day/night session-deadline comparison
(`now_dt >= deadline_dt`), which is wall-clock input; `maxDailyLossPct` is
`TRADER_RULEBOOK['max_daily_loss_pct']`. -/
def risk_heartbeat (env : Env) (forceCloseReached : Bool) (maxDailyLossPct : ℚ)
    (st : SymState) (px : ℚ) (tradingAllowed : Bool) : HeartbeatResult :=
  let pos := st.localPos
  if forceCloseReached then
    if pos ≠ 0 then
      { orders := [OrderAct.targetPos 0]
        st := { st with localPos := 0, avgPrice := 0 }
        tradingAllowed := false }
    else { orders := [], st := st, tradingAllowed := false }
  else
    let hardStopHit : Option Bool :=
      match storedStop st with
      | some sl =>
        if pos ≠ 0 ∧ sl ≠ 0 then
          if 0 < pos ∧ px ≤ sl then some true
          else if pos < 0 ∧ sl ≤ px then some true
          else none
        else none
      | none => none
    match hardStopHit with
    | some _ =>
      { orders := [OrderAct.targetPos 0]
        st := { st with
                localPos := 0
                avgPrice := 0
                lastExitPrice := some px
                lastExitTime := some env.now
                reentryUntil := some (env.now + env.reentrySecs) }
        tradingAllowed := tradingAllowed }
    | none =>
      let eq := (estimateAccount env px st).equity
      if eq ≤ env.initCash * (1 - maxDailyLossPct) then
        if pos ≠ 0 then
          { orders := [OrderAct.targetPos 0]
            st := { st with localPos := 0, avgPrice := 0 }
            tradingAllowed := false }
        else { orders := [], st := st, tradingAllowed := false }
      else { orders := [], st := st, tradingAllowed := tradingAllowed }

/-! ### `_KeyPool` of `ai_trader_v2.py` and `APIKeyPool` of
`akoudai_kimi_combined.py`

Both pools serialise `acquire`/`release` under a lock, so an interleaving
of concurrent calls is a sequence of atomic operations on the counter
list. -/

/-- `_KeyPool.acquire`: pick the first credential with `in_flight <= 0`,
set its counter to 1; `none` when every credential is busy. -/
def kpAcquire : List ℤ → Option ℕ × List ℤ
  | [] => (none, [])
  | x :: xs =>
    if x ≤ 0 then (some 0, 1 :: xs)
    else
      match kpAcquire xs with
      | (some i, ys) => (some (i + 1), x :: ys)
      | (none, ys) => (none, x :: ys)

/-- `_KeyPool.release(idx)`: decrement, floored at 0; out-of-range
indices are ignored. -/
def kpRelease (l : List ℤ) (i : ℕ) : List ℤ :=
  if i < l.length then l.set i (max 0 (l.getD i 0 - 1)) else l

/-- One atomic key-pool operation. -/
inductive KpOp where
  | acq
  | rel (i : ℕ)
deriving DecidableEq, Repr

/-- Run a sequence of `_KeyPool` operations on the counter list. -/
def kpRun (l : List ℤ) : List KpOp → List ℤ
  | [] => l
  | KpOp.acq :: ops => kpRun (kpAcquire l).2 ops
  | KpOp.rel i :: ops => kpRun (kpRelease l i) ops

/-- `APIKeyPool` state: counters plus the round-robin pointer. -/
structure ApState where
  inflight : List ℤ
  ptr : ℕ
deriving DecidableEq, Repr

/-- Scan `n` slots starting at `ptr` for one with `in_flight == 0`. -/
def apFindIdle (l : List ℤ) (ptr : ℕ) : ℕ → Option ℕ
  | 0 => none
  | k + 1 =>
    let idx := ptr % l.length
    if l.getD idx 0 = 0 then some idx
    else apFindIdle l (ptr + 1) k

/-- `list.index(min(list))`: index of the first minimal counter. -/
def apMinIdx (l : List ℤ) : ℕ :=
  (l.indexOf (l.foldr min (l.getD 0 0)))

/-- `APIKeyPool.acquire`: first idle credential from the round-robin
pointer, else the least-busy one; its counter is incremented either way. -/
def apAcquire (s : ApState) : Option ℕ × ApState :=
  if s.inflight.length = 0 then (none, s)
  else
    match apFindIdle s.inflight s.ptr s.inflight.length with
    | some idx =>
      (some idx,
       { inflight := s.inflight.set idx (s.inflight.getD idx 0 + 1)
         ptr := (idx + 1) % s.inflight.length })
    | none =>
      let idx := apMinIdx s.inflight
      (some idx,
       { inflight := s.inflight.set idx (s.inflight.getD idx 0 + 1)
         ptr := (idx + 1) % s.inflight.length })

/-- `APIKeyPool.release`. -/
def apRelease (s : ApState) (i : ℕ) : ApState :=
  if i < s.inflight.length then
    { s with inflight := s.inflight.set i (max 0 (s.inflight.getD i 0 - 1)) }
  else s

/-- Run a sequence of `APIKeyPool` operations. -/
def apRun (s : ApState) : List KpOp → ApState
  | [] => s
  | KpOp.acq :: ops => apRun (apAcquire s).2 ops
  | KpOp.rel i :: ops => apRun (apRelease s i) ops

/-! ### The per-symbol pending-decision slot (`on_bar` / `_run_ai`)

A background oracle task (`_run_ai`) writes `pending_decision` together
with its job sequence number into the slot; the synchronous `on_bar` path
consumes the slot only when its sequence exceeds `last_executed_seq`, and
records the consumed sequence.  Completion order of the background tasks
is arbitrary, so a trace is any interleaving of writes and consume
attempts. -/

structure SlotState where
  pending : Option ℕ
  lastExec : ℕ
deriving DecidableEq, Repr

inductive SlotEvent where
  | write (seq : ℕ)
  | consume
deriving DecidableEq, Repr

/-- One slot transition; the second component is the sequence executed by
this step, if any.  A consume keeps `pending_decision` in place (the code
never clears it) but bumps `last_executed_seq`, so the same sequence can
never be executed again. -/
def slotStep (s : SlotState) (e : SlotEvent) : SlotState × Option ℕ :=
  match e with
  | SlotEvent.write seq => ({ pending := some seq, lastExec := s.lastExec }, none)
  | SlotEvent.consume =>
    match s.pending with
    | some seq =>
      if s.lastExec < seq then ({ s with lastExec := seq }, some seq)
      else (s, none)
    | none => (s, none)

/-- Run a trace of slot events, collecting the executed sequences in
order. -/
def slotRun (s : SlotState) : List SlotEvent → SlotState × List ℕ
  | [] => (s, [])
  | e :: es =>
    ((slotRun (slotStep s e).1 es).1,
     match (slotStep s e).2 with
     | some q => q :: (slotRun (slotStep s e).1 es).2
     | none => (slotRun (slotStep s e).1 es).2)

/-- The slot at startup: nothing pending, nothing executed. -/
def slotInit : SlotState := { pending := none, lastExec := 0 }

/-! ### Scale-out planner (`akoudai_kimi_combined.py`) -/

/-- Weight normalisation at plan creation:
`pcts = [min(1.0, p / tot) for p in pcts]` with `tot = sum(pcts)`. -/
def normalizePcts (pc : List ℚ) : List ℚ :=
  pc.map (fun p => min 1 (p / pc.sum))

/-- Add `d` to the last element of a list (`raw[-1] += d`). -/
def addToLast (d : ℤ) : List ℤ → List ℤ
  | [] => []
  | [x] => [x + d]
  | x :: y :: xs => x :: addToLast d (y :: xs)

/-- Per-tranche lot quantities from the opening lot count `base`
(`RiskController.check_and_enforce`, plan-initialisation block):
truncate `base * p` per tranche, force a single lot when everything
truncated to zero, and assign any remainder to the last tranche. -/
def trancheQtys (base : ℤ) (pcts : List ℚ) : List ℤ :=
  let raw := pcts.map (fun p => max 0 (truncQ ((base : ℚ) * p)))
  let raw1 := if raw.sum = 0 then addToLast 1 (List.replicate pcts.length 0) else raw
  if raw1.sum < base then addToLast (base - raw1.sum) raw1 else raw1

/-- One tranche of the running scale-out loop. -/
structure Tranche where
  target : ℚ
  qty : ℤ
  executed : Bool
deriving DecidableEq, Repr

/-- The tranche-trigger loop of `check_and_enforce` on one tick, for a
long plan: walk the tranches in order with the remaining absolute
position `cur`; a non-positive tranche is marked executed without an
order; an emitted partial close is capped at `cur` and (its fill being
immediate in this closed model) reduces `cur` by the emitted quantity. -/
def scaleOutTickLong (price : ℚ) : List Tranche → ℤ → List Tranche × ℤ × List ℤ
  | [], cur => ([], cur, [])
  | t :: ts, cur =>
    if t.executed then
      let (ts1, cur1, outs) := scaleOutTickLong price ts cur
      (t :: ts1, cur1, outs)
    else if t.qty ≤ 0 then
      let (ts1, cur1, outs) := scaleOutTickLong price ts cur
      ({ t with executed := true } :: ts1, cur1, outs)
    else if cur ≤ 0 then (t :: ts, cur, [])
    else
      let vol := if cur < t.qty then cur else t.qty
      if t.target ≤ price then
        let (ts1, cur1, outs) := scaleOutTickLong price ts (cur - vol)
        ({ t with executed := true } :: ts1, cur1, vol :: outs)
      else
        let (ts1, cur1, outs) := scaleOutTickLong price ts cur
        (t :: ts1, cur1, outs)

/-- The tranche-trigger loop for a short plan (`side == 'short'`, cover
branch): identical walk, but a tranche triggers when the price has fallen
to its target (`current_price <= tgt`) and the emitted order is a
`cover`. -/
def scaleOutTickShort (price : ℚ) : List Tranche → ℤ → List Tranche × ℤ × List ℤ
  | [], cur => ([], cur, [])
  | t :: ts, cur =>
    if t.executed then
      let (ts1, cur1, outs) := scaleOutTickShort price ts cur
      (t :: ts1, cur1, outs)
    else if t.qty ≤ 0 then
      let (ts1, cur1, outs) := scaleOutTickShort price ts cur
      ({ t with executed := true } :: ts1, cur1, outs)
    else if cur ≤ 0 then (t :: ts, cur, [])
    else
      let vol := if cur < t.qty then cur else t.qty
      if price ≤ t.target then
        let (ts1, cur1, outs) := scaleOutTickShort price ts (cur - vol)
        ({ t with executed := true } :: ts1, cur1, vol :: outs)
      else
        let (ts1, cur1, outs) := scaleOutTickShort price ts cur
        (t :: ts1, cur1, outs)

/-! ### Concrete instances used to evaluate the kernel on the spec's
scenario inputs -/

/-- Environment with the configuration constants of `ai_trader_v2.py`
(`NEW_TRADE_MARGIN_BUFFER=1.12`, `MIN_GUARANTEE_RATIO=1.15`,
`MIN_STOP_TICKS=5`, `MIN_STOP_ATR_MULT=0.25`, `REENTRY_COOLDOWN_SECS=120`)
and the scenario's contract data (multiplier 1000, margin ratio 0.14,
tick 0.1, initial capital 200000). -/
def scenEnv : Env :=
  { now := 1000, tick := 1/10, mult := 1000, mrLong := 14/100, mrShort := 14/100
    minVol := 1, initCash := 200000, buffer := 28/25, minGR := 23/20
    minStopTicks := 5, minStopAtrMult := 1/4, reentrySecs := 120
    minConfidence := 0, adaptiveSizePct := 3/10, gapTicks := 0, atr := 0
    rb := TRADER_RULEBOOK, singleSide := true, allowPyramid := true
    liqThin := false, spreadWide := false, bid := none, ask := none, midPx := none }

/-- A freshly initialised per-symbol state (flat, no timers). -/
def scenFlatState : SymState :=
  { localPos := 0, avgPrice := 0, realizedPnl := 0, aiDecision := none
    currentPlanId := none, lastEntryPx := none, lastExitPrice := none
    lastExitTime := none, lastOrderPrice := none, lastOrderTs := none
    reentryUntil := none, cooldownUntil := none }

/-- The spec scenario's decision: `buy`, requested size 0.3, stop 545. -/
def scenDecision : Decision :=
  { signal := "buy", confidence := some (1/2)
    tradePlan := some { positionSizePct := some (3/10), stopLoss := some 545
                        profitTarget1 := none, planId := some 1, orderPriceStyle := "best" }
    cooldownMinutes := some 0 }

/-- The sizing inputs the scenario reaches the buy branch with. -/
def scenParams : SizeParams := sizeParamsFor scenEnv scenFlatState scenDecision true 550

/-- A `buy` decision whose fractional size is 0 (the gate alone calls
this insane). -/
def zeroSizeDecision : Decision :=
  { signal := "buy", confidence := some (1/2)
    tradePlan := some { positionSizePct := some 0, stopLoss := some 545
                        profitTarget1 := none, planId := some 1, orderPriceStyle := "best" }
    cooldownMinutes := some 0 }

/-- Environment for the pyramiding example: same contract, 2,000,000
initial capital. -/
def pyrEnv : Env := { scenEnv with initCash := 2000000 }

/-- Existing long position: 2 lots at average price 500. -/
def pyrState : SymState := { scenFlatState with localPos := 2, avgPrice := 500 }

/-- A `buy` decision of size 0.6 pyramiding onto the existing long. -/
def pyrDecision : Decision :=
  { signal := "buy", confidence := some (1/2)
    tradePlan := some { positionSizePct := some (3/5), stopLoss := some 545
                        profitTarget1 := none, planId := some 2, orderPriceStyle := "best" }
    cooldownMinutes := some 0 }

/-- A `close` decision. -/
def closeDecision : Decision :=
  { signal := "close", confidence := some (1/2), tradePlan := none
    cooldownMinutes := some 0 }

/-- The spec's heartbeat scenario: long 2 lots at average 550 with stored
hard stop 548 and a stored plan id. -/
def hbState : SymState :=
  { scenFlatState with
    localPos := 2
    avgPrice := 550
    aiDecision := some { stopLoss := some 548, profitTarget := some 560 }
    currentPlanId := some 7 }

/-- The mirrored heartbeat scenario: short 2 lots at average 550 with
stored hard stop 552 and a stored plan id. -/
def hbShortState : SymState :=
  { scenFlatState with
    localPos := -2
    avgPrice := 550
    aiDecision := some { stopLoss := some 552, profitTarget := some 540 }
    currentPlanId := some 7 }

/-- The sizing result the scenario produces (1 lot at 550, stop 545,
77,000 of new margin). -/
def scenBuyResult : SizeResult :=
  { vol := 1, price := 550, stop := some 545, marginPost := 77000 }

/-- A `buy` decision whose fractional size 0.7 exceeds the configured
maximum position fraction 0.6. -/
def oversizeDecision : Decision :=
  { signal := "buy", confidence := some (1/2)
    tradePlan := some { positionSizePct := some (7/10), stopLoss := some 545
                        profitTarget1 := none, planId := some 1, orderPriceStyle := "best" }
    cooldownMinutes := some 0 }

/-! ## Theorems -/

/-- C5: for every accepted buy decision the rebased stop is strictly below
the entry/order price, for every accepted sell decision strictly above,
and in both cases the distance from entry to the final stop is at least
the maximum of the oracle stop's oriented distance from entry and the
configured minimum distance `max(minTicks * tick, atr * atrMult)`; in
particular the guard never shrinks the oracle's own risk distance. -/
theorem stop_loss_orientation (op slAi atr tick : ℚ) (minTicks : ℤ) (atrMult : ℚ)
    (htick : 0 < tick) (hmt : 1 ≤ minTicks) :
    (guardStopBuy op slAi atr tick minTicks atrMult < op ∧
      max (max 0 (op - slAi)) (max ((minTicks : ℚ) * tick) (atr * atrMult)) ≤
        op - guardStopBuy op slAi atr tick minTicks atrMult) ∧
    (op < guardStopSell op slAi atr tick minTicks atrMult ∧
      max (max 0 (slAi - op)) (max ((minTicks : ℚ) * tick) (atr * atrMult)) ≤
        guardStopSell op slAi atr tick minTicks atrMult - op) := by
  have htne : tick ≠ 0 := ne_of_gt htick
  have hmtq : (1 : ℚ) ≤ (minTicks : ℚ) := by exact_mod_cast hmt
  have hgap : tick ≤ max ((minTicks : ℚ) * tick) (atr * atrMult) := by
    have : (1 : ℚ) * tick ≤ (minTicks : ℚ) * tick :=
      mul_le_mul_of_nonneg_right hmtq (le_of_lt htick)
    calc tick = 1 * tick := (one_mul tick).symm
      _ ≤ (minTicks : ℚ) * tick := this
      _ ≤ max ((minTicks : ℚ) * tick) (atr * atrMult) := le_max_left _ _
  constructor
  · have hrnew : tick ≤ max (max 0 (op - slAi)) (max ((minTicks : ℚ) * tick) (atr * atrMult)) :=
      le_trans hgap (le_max_right _ _)
    have hfl : (⌊(op - max (max 0 (op - slAi)) (max ((minTicks : ℚ) * tick) (atr * atrMult))) / tick⌋ : ℚ) * tick ≤
        op - max (max 0 (op - slAi)) (max ((minTicks : ℚ) * tick) (atr * atrMult)) := by
      have h1 : (⌊(op - max (max 0 (op - slAi)) (max ((minTicks : ℚ) * tick) (atr * atrMult))) / tick⌋ : ℚ) ≤
          (op - max (max 0 (op - slAi)) (max ((minTicks : ℚ) * tick) (atr * atrMult))) / tick :=
        Int.floor_le _
      have h2 := mul_le_mul_of_nonneg_right h1 (le_of_lt htick)
      rwa [div_mul_cancel₀ _ htne] at h2
    have hg : guardStopBuy op slAi atr tick minTicks atrMult =
        (⌊(op - max (max 0 (op - slAi)) (max ((minTicks : ℚ) * tick) (atr * atrMult))) / tick⌋ : ℚ) * tick := by
      simp only [guardStopBuy, if_pos htick]
    constructor
    · rw [hg]; linarith
    · rw [hg]; linarith
  · have hrnew : tick ≤ max (max 0 (slAi - op)) (max ((minTicks : ℚ) * tick) (atr * atrMult)) :=
      le_trans hgap (le_max_right _ _)
    have hcl : op + max (max 0 (slAi - op)) (max ((minTicks : ℚ) * tick) (atr * atrMult)) ≤
        (⌈(op + max (max 0 (slAi - op)) (max ((minTicks : ℚ) * tick) (atr * atrMult))) / tick⌉ : ℚ) * tick := by
      have h1 : (op + max (max 0 (slAi - op)) (max ((minTicks : ℚ) * tick) (atr * atrMult))) / tick ≤
          (⌈(op + max (max 0 (slAi - op)) (max ((minTicks : ℚ) * tick) (atr * atrMult))) / tick⌉ : ℚ) :=
        Int.le_ceil _
      have h2 := mul_le_mul_of_nonneg_right h1 (le_of_lt htick)
      rwa [div_mul_cancel₀ _ htne] at h2
    have hg : guardStopSell op slAi atr tick minTicks atrMult =
        (⌈(op + max (max 0 (slAi - op)) (max ((minTicks : ℚ) * tick) (atr * atrMult))) / tick⌉ : ℚ) * tick := by
      simp only [guardStopSell, if_pos htick]
    constructor
    · rw [hg]; linarith
    · rw [hg]; linarith

/-- Every sequence executed along a slot trace strictly exceeds the
last-executed marker the trace started from, and the executed sequences
are strictly increasing. -/
theorem slotRun_chain (es : List SlotEvent) : ∀ s : SlotState,
    List.Chain' (· < ·) (slotRun s es).2 ∧
    (∀ q ∈ (slotRun s es).2, s.lastExec < q) := by
  induction es with
  | nil => intro s; simp [slotRun]
  | cons e es ih =>
    intro s
    cases e with
    | write seq =>
      simpa [slotRun, slotStep] using ih { pending := some seq, lastExec := s.lastExec }
    | consume =>
      cases hp : s.pending with
      | none =>
        simpa [slotRun, slotStep, hp] using ih s
      | some seq =>
        by_cases hlt : s.lastExec < seq
        · obtain ⟨hchain, hgt⟩ := ih { pending := some seq, lastExec := seq }
          refine ⟨?_, ?_⟩
          · simp only [slotRun, slotStep, hp, if_pos hlt]
            rw [List.chain'_cons']
            exact ⟨fun h hh => hgt h (List.mem_of_mem_head? hh), hchain⟩
          · simp only [slotRun, slotStep, hp, if_pos hlt]
            intro q hq
            rcases List.mem_cons.mp hq with hq | hq
            · exact hq ▸ hlt
            · exact lt_trans hlt (hgt q hq)
        · simpa [slotRun, slotStep, hp, if_neg hlt] using ih s

/-- C1: along every trace of PendingDecisionSlot writes and consume
attempts (completion order arbitrary, e.g. sequences 3, 1, 4 arriving in
any order), the execution path applies a pending decision only if its
sequence strictly exceeds the last-executed sequence — the executed
sequences form a strictly increasing list — and hence each written slot
is executed at most once. -/
theorem pending_slot_at_most_once (es : List SlotEvent) :
    List.Chain' (· < ·) (slotRun slotInit es).2 ∧
    (slotRun slotInit es).2.Nodup := by
  obtain ⟨hchain, _⟩ := slotRun_chain es slotInit
  refine ⟨hchain, ?_⟩
  have hpw := List.chain'_iff_pairwise.mp hchain
  exact hpw.imp (fun h => ne_of_lt h)

/-- `_KeyPool.acquire` keeps every in-flight counter in `[0, 1]`. -/
theorem kpAcquire_bounds (l : List ℤ) (h : ∀ x ∈ l, 0 ≤ x ∧ x ≤ 1) :
    ∀ x ∈ (kpAcquire l).2, 0 ≤ x ∧ x ≤ 1 := by
  induction l with
  | nil => simp [kpAcquire]
  | cons a as ih =>
    have ha := h a (List.mem_cons_self a as)
    have has : ∀ x ∈ as, 0 ≤ x ∧ x ≤ 1 := fun x hx => h x (List.mem_cons_of_mem a hx)
    by_cases hle : a ≤ 0
    · simp only [kpAcquire, if_pos hle]
      intro x hx
      rcases List.mem_cons.mp hx with hx | hx
      · subst hx; exact ⟨by norm_num, by norm_num⟩
      · exact has x hx
    · simp only [kpAcquire, if_neg hle]
      rcases hrec : kpAcquire as with ⟨oi, ys⟩
      have hys : ∀ x ∈ ys, 0 ≤ x ∧ x ≤ 1 := by
        have := ih has
        rw [hrec] at this
        exact this
      cases oi with
      | some i =>
        simp only
        intro x hx
        rcases List.mem_cons.mp hx with hx | hx
        · subst hx; exact ha
        · exact hys x hx
      | none =>
        simp only
        intro x hx
        rcases List.mem_cons.mp hx with hx | hx
        · subst hx; exact ha
        · exact hys x hx

/-- `_KeyPool.release` keeps every in-flight counter in `[0, 1]`. -/
theorem kpRelease_bounds (l : List ℤ) (i : ℕ) (h : ∀ x ∈ l, 0 ≤ x ∧ x ≤ 1) :
    ∀ x ∈ kpRelease l i, 0 ≤ x ∧ x ≤ 1 := by
  unfold kpRelease
  split
  · intro x hx
    rcases List.mem_or_eq_of_mem_set hx with hx | hx
    · exact h x hx
    · subst hx
      refine ⟨le_max_left _ _, max_le (by norm_num) ?_⟩
      have hgd : l.getD i 0 ≤ 1 := by
        rcases lt_or_ge i l.length with hi | hi
        · have hg : l.getD i 0 = l[i] := by
            rw [List.getD_eq_getElem?_getD, List.getElem?_eq_getElem hi]
            rfl
          rw [hg]
          exact (h _ (List.getElem_mem hi)).2
        · have hg : l.getD i 0 = 0 := by
            rw [List.getD_eq_getElem?_getD, List.getElem?_eq_none hi]
            rfl
          rw [hg]
          norm_num
      omega
  · exact h

/-- Counters stay in `[0, 1]` along every `_KeyPool` trace. -/
theorem kpRun_bounds (ops : List KpOp) : ∀ l : List ℤ,
    (∀ x ∈ l, 0 ≤ x ∧ x ≤ 1) → ∀ x ∈ kpRun l ops, 0 ≤ x ∧ x ≤ 1 := by
  induction ops with
  | nil => intro l h; simpa [kpRun] using h
  | cons op ops ih =>
    intro l h
    cases op with
    | acq => exact ih _ (kpAcquire_bounds l h)
    | rel i => exact ih _ (kpRelease_bounds l i h)

/-- A successful `_KeyPool.acquire` picked a credential that was idle. -/
theorem kpAcquire_idle (l : List ℤ) : ∀ i : ℕ, (kpAcquire l).1 = some i → l.getD i 1 ≤ 0 := by
  induction l with
  | nil => intro i h; simp [kpAcquire] at h
  | cons a as ih =>
    intro i h
    by_cases hle : a ≤ 0
    · simp only [kpAcquire, if_pos hle] at h
      obtain rfl : (0 : ℕ) = i := by simpa using h
      simpa using hle
    · simp only [kpAcquire, if_neg hle] at h
      rcases hrec : kpAcquire as with ⟨oi, ys⟩
      rw [hrec] at h
      cases oi with
      | some j =>
        simp only at h
        obtain rfl : j + 1 = i := by simpa using h
        have hj := ih j (by rw [hrec])
        simpa using hj
      | none => simp at h

/-- C6 (amended): every interleaving of `acquire`/`release` on
`_KeyPool` (`ai_trader_v2.py`) keeps each credential's in-flight counter
capped at 1 (and nonnegative) starting from the all-idle pool, and
`acquire` either returns a credential that was idle or the
not-available signal `none`.  (`APIKeyPool` of the combined variant
violates the cap; see the counterexample.) -/
theorem keypool_in_flight_cap (n : ℕ) (ops : List KpOp) :
    (∀ x ∈ kpRun (List.replicate n 0) ops, 0 ≤ x ∧ x ≤ 1) ∧
    (∀ (l : List ℤ) (i : ℕ), (kpAcquire l).1 = some i → l.getD i 1 ≤ 0) := by
  constructor
  · refine kpRun_bounds ops (List.replicate n 0) ?_
    intro x hx
    rw [List.eq_of_mem_replicate hx]
    exact ⟨le_refl 0, by norm_num⟩
  · exact fun l i h => kpAcquire_idle l i h

/-- C6 counterexample: on `APIKeyPool` (`akoudai_kimi_combined.py`), two
concurrent acquires against a single-credential pool drive the in-flight
counter to 2 — the claimed cap of 1 does not hold for that pool. -/
theorem apipool_exceeds_cap_cex :
    (apRun { inflight := [0], ptr := 0 } [KpOp.acq, KpOp.acq]).inflight = [2] ∧
    ¬ ((2 : ℤ) ≤ 1) := by
  constructor
  · rfl
  · norm_num

/-- Summing after dividing every element. -/
theorem sum_map_div (l : List ℚ) (b : ℚ) :
    (l.map (fun p => p / b)).sum = l.sum / b := by
  induction l with
  | nil => simp
  | cons a as ih => simp [ih, add_div]

/-- `addToLast` keeps a nonempty list nonempty. -/
theorem addToLast_ne_nil (d : ℤ) (l : List ℤ) (h : l ≠ []) : addToLast d l ≠ [] := by
  cases l with
  | nil => simp at h
  | cons a as => cases as <;> simp [addToLast]

/-- `addToLast` adds exactly `d` to the total of a nonempty list. -/
theorem addToLast_sum (d : ℤ) : ∀ l : List ℤ, l ≠ [] → (addToLast d l).sum = l.sum + d := by
  intro l
  induction l with
  | nil => intro h; simp at h
  | cons a as ih =>
    intro _
    cases as with
    | nil => simp [addToLast]
    | cons b bs =>
      have := ih (by simp)
      simp only [addToLast, List.sum_cons] at this ⊢
      omega

/-- Normalised weights sum to exactly 1 (`tot > 0` and every positive
weight is at most the total, so the `min 1` clamp never bites). -/
theorem normalizePcts_sum (pc : List ℚ) (hne : pc ≠ []) (hpos : ∀ p ∈ pc, 0 < p) :
    (normalizePcts pc).sum = 1 := by
  have htot : 0 < pc.sum := by
    cases pc with
    | nil => simp at hne
    | cons a as =>
      have ha := hpos a (List.mem_cons_self a as)
      have hs : 0 ≤ as.sum :=
        List.sum_nonneg (fun x hx => le_of_lt (hpos x (List.mem_cons_of_mem a hx)))
      simp only [List.sum_cons]
      linarith
  have hmap : normalizePcts pc = pc.map (fun p => p / pc.sum) := by
    unfold normalizePcts
    apply List.map_congr_left
    intro p hp
    have hple : p ≤ pc.sum :=
      List.single_le_sum (fun x hx => le_of_lt (hpos x hx)) p hp
    have h1 : p / pc.sum ≤ 1 := by
      rw [div_le_one htot]
      exact hple
    exact min_eq_right h1
  rw [hmap, sum_map_div, div_self (ne_of_gt htot)]

/-- Sum of per-element floors is at most the floor of the scaled sum. -/
theorem sum_floor_le (base : ℚ) : ∀ l : List ℚ,
    (l.map (fun p => ⌊base * p⌋)).sum ≤ ⌊base * l.sum⌋ := by
  intro l
  induction l with
  | nil => simp
  | cons a as ih =>
    simp only [List.map_cons, List.sum_cons]
    have ha := Int.floor_le (base * a)
    have hb : ((as.map (fun p => ⌊base * p⌋)).sum : ℚ) ≤ base * as.sum :=
      le_trans (by exact_mod_cast ih) (Int.floor_le _)
    have h2 : (⌊base * a⌋ + (as.map (fun p => ⌊base * p⌋)).sum : ℤ) ≤ ⌊base * (a + as.sum)⌋ := by
      rw [Int.le_floor, mul_add]
      have hcast : ((⌊base * a⌋ + (as.map (fun p => ⌊base * p⌋)).sum : ℤ) : ℚ) =
          (⌊base * a⌋ : ℚ) + ((as.map (fun p => ⌊base * p⌋)).sum : ℚ) := by
        push_cast
        ring
      rw [hcast]
      linarith
    exact h2

/-- The tranche quantities sum to exactly the opening lot count whenever
the weights are nonnegative and sum to at most 1. -/
theorem trancheQtys_sum (base : ℤ) (pcts : List ℚ) (hbase : 0 < base)
    (hne : pcts ≠ []) (hnn : ∀ p ∈ pcts, 0 ≤ p) (hsum : pcts.sum ≤ 1) :
    (trancheQtys base pcts).sum = base := by
  have hbq : (0 : ℚ) ≤ (base : ℚ) := by exact_mod_cast le_of_lt hbase
  have hraw : (pcts.map (fun p => max 0 (truncQ ((base : ℚ) * p)))).sum =
      (pcts.map (fun p => ⌊(base : ℚ) * p⌋)).sum := by
    apply congrArg
    apply List.map_congr_left
    intro p hp
    have hpp : 0 ≤ (base : ℚ) * p := mul_nonneg hbq (hnn p hp)
    have ht : truncQ ((base : ℚ) * p) = ⌊(base : ℚ) * p⌋ := by
      unfold truncQ
      rw [if_pos hpp]
    rw [ht, max_eq_right (Int.floor_nonneg.mpr hpp)]
  have hle : (pcts.map (fun p => max 0 (truncQ ((base : ℚ) * p)))).sum ≤ base := by
    rw [hraw]
    calc (pcts.map (fun p => ⌊(base : ℚ) * p⌋)).sum
        ≤ ⌊(base : ℚ) * pcts.sum⌋ := sum_floor_le (base : ℚ) pcts
      _ ≤ ⌊(base : ℚ) * 1⌋ := by
          apply Int.floor_le_floor
          exact mul_le_mul_of_nonneg_left hsum hbq
      _ = base := by rw [mul_one]; exact Int.floor_intCast base
  simp only [trancheQtys]
  by_cases hz : (pcts.map (fun p => max 0 (truncQ ((base : ℚ) * p)))).sum = 0
  · rw [if_pos hz]
    have hrep : (List.replicate pcts.length (0 : ℤ)) ≠ [] := by
      cases pcts with
      | nil => simp at hne
      | cons a as => simp [List.replicate]
    have h1 : (addToLast 1 (List.replicate pcts.length (0 : ℤ))).sum = 1 := by
      rw [addToLast_sum 1 _ hrep]
      simp
    by_cases hlt : (addToLast 1 (List.replicate pcts.length (0 : ℤ))).sum < base
    · rw [if_pos hlt]
      have hne2 : addToLast 1 (List.replicate pcts.length (0 : ℤ)) ≠ [] :=
        addToLast_ne_nil 1 _ hrep
      rw [addToLast_sum _ _ hne2, h1]
      omega
    · rw [if_neg hlt]
      rw [h1] at hlt ⊢
      omega
  · rw [if_neg hz]
    by_cases hlt : (pcts.map (fun p => max 0 (truncQ ((base : ℚ) * p)))).sum < base
    · rw [if_pos hlt]
      have hne2 : pcts.map (fun p => max 0 (truncQ ((base : ℚ) * p))) ≠ [] := by
        cases pcts with
        | nil => simp at hne
        | cons a as => simp
      rw [addToLast_sum _ _ hne2]
      omega
    · rw [if_neg hlt]
      omega

/-- Bookkeeping invariant of the tranche-trigger loop: the final remaining
position is the initial one minus everything emitted, and when the
remaining position starts nonnegative the emissions never overdraw it. -/
theorem scaleOutTickLong_spec (price : ℚ) : ∀ (ts : List Tranche) (cur : ℤ),
    (scaleOutTickLong price ts cur).2.1 = cur - (scaleOutTickLong price ts cur).2.2.sum ∧
    (0 ≤ cur → 0 ≤ (scaleOutTickLong price ts cur).2.1) := by
  intro ts
  induction ts with
  | nil => intro cur; simp [scaleOutTickLong]
  | cons t ts ih =>
    intro cur
    by_cases hexec : t.executed
    · simpa [scaleOutTickLong, hexec] using ih cur
    · by_cases hqty : t.qty ≤ 0
      · simpa [scaleOutTickLong, hexec, hqty] using ih cur
      · by_cases hcur : cur ≤ 0
        · simp [scaleOutTickLong, hexec, hqty, hcur]
        · by_cases htgt : t.target ≤ price
          · by_cases hlt : cur < t.qty
            · obtain ⟨h1, h2⟩ := ih (cur - cur)
              simp only [scaleOutTickLong, hexec, hqty, hcur, htgt, hlt, Bool.false_eq_true,
                if_false, if_true, List.sum_cons]
              constructor
              · rw [h1]
                ring
              · intro h0
                exact h2 (by simp)
            · obtain ⟨h1, h2⟩ := ih (cur - t.qty)
              simp only [scaleOutTickLong, hexec, hqty, hcur, htgt, hlt, Bool.false_eq_true,
                if_false, if_true, List.sum_cons]
              constructor
              · rw [h1]
                ring
              · intro h0
                refine h2 ?_
                omega
          · simpa [scaleOutTickLong, hexec, hqty, hcur, htgt] using ih cur

/-- When every tranche is armed and triggered and the quantities sum to
the remaining position, one pass leaves the position flat. -/
theorem scaleOutTickLong_flat (price : ℚ) : ∀ (ts : List Tranche) (cur : ℤ),
    (∀ t ∈ ts, t.executed = false ∧ 0 ≤ t.qty ∧ t.target ≤ price) →
    (ts.map Tranche.qty).sum = cur →
    (scaleOutTickLong price ts cur).2.1 = 0 := by
  intro ts
  induction ts with
  | nil =>
    intro cur _ hsum
    simp only [List.map_nil, List.sum_nil] at hsum
    rw [show cur = 0 from hsum.symm]
    rfl
  | cons t ts ih =>
    intro cur hall hsum
    obtain ⟨hexec, hqty, htgt⟩ := hall t (List.mem_cons_self t ts)
    have hall2 : ∀ u ∈ ts, u.executed = false ∧ 0 ≤ u.qty ∧ u.target ≤ price :=
      fun u hu => hall u (List.mem_cons_of_mem t hu)
    have htail : 0 ≤ (ts.map Tranche.qty).sum :=
      List.sum_nonneg (by
        intro x hx
        obtain ⟨u, hu, rfl⟩ := List.mem_map.mp hx
        exact (hall2 u hu).2.1)
    simp only [List.map_cons, List.sum_cons] at hsum
    by_cases hq0 : t.qty ≤ 0
    · have hq : t.qty = 0 := le_antisymm hq0 hqty
      have := ih cur hall2 (by omega)
      simpa [scaleOutTickLong, hexec, hq0] using this
    · have hcurpos : 0 < cur := by omega
      have hmin : (if cur < t.qty then cur else t.qty) = t.qty := by
        rw [if_neg (by omega)]
      have hrec := ih (cur - t.qty) hall2 (by omega)
      have hncur : ¬ cur ≤ 0 := not_le.mpr hcurpos
      simp only [scaleOutTickLong, hexec, hq0, hncur, htgt, Bool.false_eq_true,
        if_false, if_true, hmin]
      exact hrec

/-- Mirror of `scaleOutTickLong_spec` for the short (cover) side of the
trigger loop: the remaining position drops by exactly the emitted volume
and stays nonnegative. -/
theorem scaleOutTickShort_spec (price : ℚ) : ∀ (ts : List Tranche) (cur : ℤ),
    (scaleOutTickShort price ts cur).2.1 = cur - (scaleOutTickShort price ts cur).2.2.sum ∧
    (0 ≤ cur → 0 ≤ (scaleOutTickShort price ts cur).2.1) := by
  intro ts
  induction ts with
  | nil => intro cur; simp [scaleOutTickShort]
  | cons t ts ih =>
    intro cur
    by_cases hexec : t.executed
    · simpa [scaleOutTickShort, hexec] using ih cur
    · by_cases hqty : t.qty ≤ 0
      · simpa [scaleOutTickShort, hexec, hqty] using ih cur
      · by_cases hcur : cur ≤ 0
        · simp [scaleOutTickShort, hexec, hqty, hcur]
        · by_cases htgt : price ≤ t.target
          · by_cases hlt : cur < t.qty
            · obtain ⟨h1, h2⟩ := ih (cur - cur)
              simp only [scaleOutTickShort, hexec, hqty, hcur, htgt, hlt, Bool.false_eq_true,
                if_false, if_true, List.sum_cons]
              constructor
              · rw [h1]
                ring
              · intro h0
                exact h2 (by simp)
            · obtain ⟨h1, h2⟩ := ih (cur - t.qty)
              simp only [scaleOutTickShort, hexec, hqty, hcur, htgt, hlt, Bool.false_eq_true,
                if_false, if_true, List.sum_cons]
              constructor
              · rw [h1]
                ring
              · intro h0
                refine h2 ?_
                omega
          · simpa [scaleOutTickShort, hexec, hqty, hcur, htgt] using ih cur

/-- Mirror of `scaleOutTickLong_flat` for the short (cover) side: when
every tranche is pending with nonnegative quantity and the price has
reached every target, the walk covers the whole position. -/
theorem scaleOutTickShort_flat (price : ℚ) : ∀ (ts : List Tranche) (cur : ℤ),
    (∀ t ∈ ts, t.executed = false ∧ 0 ≤ t.qty ∧ price ≤ t.target) →
    (ts.map Tranche.qty).sum = cur →
    (scaleOutTickShort price ts cur).2.1 = 0 := by
  intro ts
  induction ts with
  | nil =>
    intro cur _ hsum
    simp only [List.map_nil, List.sum_nil] at hsum
    rw [show cur = 0 from hsum.symm]
    rfl
  | cons t ts ih =>
    intro cur hall hsum
    obtain ⟨hexec, hqty, htgt⟩ := hall t (List.mem_cons_self t ts)
    have hall2 : ∀ u ∈ ts, u.executed = false ∧ 0 ≤ u.qty ∧ price ≤ u.target :=
      fun u hu => hall u (List.mem_cons_of_mem t hu)
    have htail : 0 ≤ (ts.map Tranche.qty).sum :=
      List.sum_nonneg (by
        intro x hx
        obtain ⟨u, hu, rfl⟩ := List.mem_map.mp hx
        exact (hall2 u hu).2.1)
    simp only [List.map_cons, List.sum_cons] at hsum
    by_cases hq0 : t.qty ≤ 0
    · have hq : t.qty = 0 := le_antisymm hq0 hqty
      have := ih cur hall2 (by omega)
      simpa [scaleOutTickShort, hexec, hq0] using this
    · have hcurpos : 0 < cur := by omega
      have hmin : (if cur < t.qty then cur else t.qty) = t.qty := by
        rw [if_neg (by omega)]
      have hrec := ih (cur - t.qty) hall2 (by omega)
      have hncur : ¬ cur ≤ 0 := not_le.mpr hcurpos
      simp only [scaleOutTickShort, hexec, hq0, hncur, htgt, Bool.false_eq_true,
        if_false, if_true, hmin]
      exact hrec

/-- C10: in the scale-out planner of `akoudai_kimi_combined.py` the
normalised weights sum to 1, the computed tranche quantities sum to
exactly the lot count at plan creation (so they never exceed it, the
remainder going to the last tranche), the trigger loop — on both the
long side and the short (cover) side — never emits more than the
currently remaining position, a non-positive tranche is marked executed
without emitting an order on either side, and triggering every tranche
leaves the position flat on either side. -/
theorem scale_out_conservation :
    (∀ pc : List ℚ, pc ≠ [] → (∀ p ∈ pc, 0 < p) → (normalizePcts pc).sum = 1) ∧
    (∀ (base : ℤ) (pcts : List ℚ), 0 < base → pcts ≠ [] → (∀ p ∈ pcts, 0 ≤ p) →
      pcts.sum ≤ 1 → (trancheQtys base pcts).sum = base) ∧
    (∀ (price : ℚ) (ts : List Tranche) (cur : ℤ), 0 ≤ cur →
      (scaleOutTickLong price ts cur).2.2.sum ≤ cur ∧
      (scaleOutTickShort price ts cur).2.2.sum ≤ cur) ∧
    (∀ (price : ℚ) (t : Tranche) (ts : List Tranche) (cur : ℤ),
      t.executed = false → t.qty ≤ 0 →
      (scaleOutTickLong price (t :: ts) cur).2.2 = (scaleOutTickLong price ts cur).2.2 ∧
      (scaleOutTickLong price (t :: ts) cur).1 =
        { t with executed := true } :: (scaleOutTickLong price ts cur).1 ∧
      (scaleOutTickShort price (t :: ts) cur).2.2 = (scaleOutTickShort price ts cur).2.2 ∧
      (scaleOutTickShort price (t :: ts) cur).1 =
        { t with executed := true } :: (scaleOutTickShort price ts cur).1) ∧
    (∀ (price : ℚ) (ts : List Tranche) (cur : ℤ),
      (∀ t ∈ ts, t.executed = false ∧ 0 ≤ t.qty ∧ t.target ≤ price) →
      (ts.map Tranche.qty).sum = cur →
      (scaleOutTickLong price ts cur).2.1 = 0) ∧
    (∀ (price : ℚ) (ts : List Tranche) (cur : ℤ),
      (∀ t ∈ ts, t.executed = false ∧ 0 ≤ t.qty ∧ price ≤ t.target) →
      (ts.map Tranche.qty).sum = cur →
      (scaleOutTickShort price ts cur).2.1 = 0) := by
  refine ⟨normalizePcts_sum, trancheQtys_sum, ?_, ?_, scaleOutTickLong_flat,
    scaleOutTickShort_flat⟩
  · intro price ts cur hcur
    constructor
    · obtain ⟨heq, hnn⟩ := scaleOutTickLong_spec price ts cur
      have := hnn hcur
      omega
    · obtain ⟨heq, hnn⟩ := scaleOutTickShort_spec price ts cur
      have := hnn hcur
      omega
  · intro price t ts cur hexec hqty
    refine ⟨?_, ?_, ?_, ?_⟩
    · simp [scaleOutTickLong, hexec, hqty]
    · simp [scaleOutTickLong, hexec, hqty]
    · simp [scaleOutTickShort, hexec, hqty]
    · simp [scaleOutTickShort, hexec, hqty]

/-- Witness for C10 on the running example: three tranches weighted
0.33/0.33/0.34 over 10 opening lots, exercised on the long side at price
600 and on the short (cover) side at price 500. -/
theorem scale_out_conservation_witness :
    (normalizePcts [33/100, 33/100, 34/100]).sum = 1 ∧
    (trancheQtys 10 (normalizePcts [33/100, 33/100, 34/100])).sum = 10 ∧
    (scaleOutTickLong 600 [⟨560, 3, false⟩, ⟨570, 3, false⟩, ⟨580, 4, false⟩] 10).2.2.sum ≤ 10 ∧
    (scaleOutTickLong 600 [⟨560, 3, false⟩, ⟨570, 3, false⟩, ⟨580, 4, false⟩] 10).2.1 = 0 ∧
    (scaleOutTickShort 500 [⟨540, 3, false⟩, ⟨530, 3, false⟩, ⟨520, 4, false⟩] 10).2.2.sum ≤ 10 ∧
    (scaleOutTickShort 500 [⟨540, 3, false⟩, ⟨530, 3, false⟩, ⟨520, 4, false⟩] 10).2.1 = 0 := by
  refine ⟨?_, ?_, ?_, ?_, ?_, ?_⟩
  · exact scale_out_conservation.1 [33/100, 33/100, 34/100] (by simp) (by norm_num)
  · exact scale_out_conservation.2.1 10 (normalizePcts [33/100, 33/100, 34/100])
      (by norm_num) (by simp [normalizePcts]) (by norm_num [normalizePcts])
      (by norm_num [normalizePcts])
  · exact (scale_out_conservation.2.2.1 600 [⟨560, 3, false⟩, ⟨570, 3, false⟩, ⟨580, 4, false⟩] 10
      (by norm_num)).1
  · exact scale_out_conservation.2.2.2.2.1 600
      [⟨560, 3, false⟩, ⟨570, 3, false⟩, ⟨580, 4, false⟩] 10 (by norm_num) (by norm_num)
  · exact (scale_out_conservation.2.2.1 500 [⟨540, 3, false⟩, ⟨530, 3, false⟩, ⟨520, 4, false⟩] 10
      (by norm_num)).2
  · exact scale_out_conservation.2.2.2.2.2 500
      [⟨540, 3, false⟩, ⟨530, 3, false⟩, ⟨520, 4, false⟩] 10 (by norm_num) (by norm_num)

/-- Truncation toward zero preserves nonnegativity. -/
theorem truncQ_nonneg (q : ℚ) (h : 0 ≤ q) : 0 ≤ truncQ q := by
  unfold truncQ
  rw [if_pos h]
  exact Int.floor_nonneg.mpr h

/-- The available-funds lot cap is nonnegative for nonnegative funds. -/
theorem lotsByAvailable_nonneg (p : SizeParams) (h : 0 ≤ p.available) :
    0 ≤ lotsByAvailable p := by
  unfold lotsByAvailable
  split
  · apply truncQ_nonneg
    apply div_nonneg h
    exact le_trans (by norm_num [epsQ]) (le_max_left _ _)
  · exact le_refl 0

/-- With no available funds the available-funds lot cap is zero. -/
theorem lotsByAvailable_zero (p : SizeParams) (h : p.available = 0) :
    lotsByAvailable p = 0 := by
  unfold lotsByAvailable
  split
  · rw [h, zero_div]
    simp [truncQ]
  · rfl

/-- `lots_target` is never below the venue minimum. -/
theorem minVol_le_lotsTarget (p : SizeParams) : p.minVol ≤ lotsTarget p :=
  le_max_left _ _

/-- The minimum-volume guard rejects when available funds cannot cover the
venue minimum and the proposed volume is no better. -/
theorem volGuard_none (p : SizeParams) (vol0 : ℤ)
    (hmbm : lotsByAvailable p < p.minVol) (hle : vol0 ≤ lotsByAvailable p) :
    volGuard p vol0 = none := by
  unfold volGuard
  rw [if_pos (lt_of_le_of_lt hle hmbm), if_pos hmbm]

/-- A volume that survives the guard either meets the venue minimum or is
the proposed volume with both lot caps at or above the minimum. -/
theorem volGuard_some (p : SizeParams) (vol0 vol : ℤ)
    (h : volGuard p vol0 = some vol) :
    p.minVol ≤ vol ∨
      (vol = vol0 ∧ p.minVol ≤ lotsByAvailable p ∧ p.minVol ≤ lotsTarget p) := by
  unfold volGuard at h
  by_cases g1 : vol0 < p.minVol
  · rw [if_pos g1] at h
    by_cases g2 : lotsByAvailable p < p.minVol
    · rw [if_pos g2] at h
      exact absurd h (by simp)
    · rw [if_neg g2] at h
      by_cases g3 : lotsTarget p < p.minVol
      · rw [if_pos g3, Option.some.injEq] at h
        left
        omega
      · rw [if_neg g3, Option.some.injEq] at h
        right
        exact ⟨h.symm, le_of_not_lt g2, le_of_not_lt g3⟩
  · rw [if_neg g1, Option.some.injEq] at h
    left
    omega

/-- With zero available funds the buy sizer always rejects. -/
theorem sizeVolBuy_avail_zero (p : SizeParams) (hmv : 1 ≤ p.minVol)
    (h0 : p.available = 0) : sizeVolBuy p = none := by
  have hz : lotsByAvailable p = 0 := lotsByAvailable_zero p h0
  have hmbm : lotsByAvailable p < p.minVol := by omega
  unfold sizeVolBuy
  by_cases h1 : 0 < p.posNow ∧ ¬ p.allowPyramid
  · rw [if_pos h1]
  · rw [if_neg h1]
    by_cases h2 : 0 < p.posNow
    · rw [if_pos h2]
      by_cases h3 : lotsTarget p ≤ |p.posNow|
      · rw [if_pos h3]
      · rw [if_neg h3]
        apply volGuard_none _ _ hmbm
        have hmin : min (lotsByAvailable p) (lotsTarget p) ≤ 0 := by
          have := min_le_left (lotsByAvailable p) (lotsTarget p)
          omega
        have habs : 0 ≤ |p.posNow| := abs_nonneg _
        exact max_le (by omega) (by omega)
    · rw [if_neg h2]
      apply volGuard_none _ _ hmbm
      have := min_le_left (lotsByAvailable p) (lotsTarget p)
      omega

/-- With zero available funds the sell sizer always rejects. -/
theorem sizeVolSell_avail_zero (p : SizeParams) (hmv : 1 ≤ p.minVol)
    (h0 : p.available = 0) : sizeVolSell p = none := by
  have hz : lotsByAvailable p = 0 := lotsByAvailable_zero p h0
  have hmbm : lotsByAvailable p < p.minVol := by omega
  unfold sizeVolSell
  by_cases h1 : p.posNow < 0 ∧ ¬ p.allowPyramid
  · rw [if_pos h1]
  · rw [if_neg h1]
    by_cases h2 : p.posNow < 0
    · rw [if_pos h2]
      by_cases h3 : lotsTarget p ≤ |p.posNow|
      · rw [if_pos h3]
      · rw [if_neg h3]
        apply volGuard_none _ _ hmbm
        have hmin : min (lotsByAvailable p) (lotsTarget p) ≤ 0 := by
          have := min_le_left (lotsByAvailable p) (lotsTarget p)
          omega
        have habs : 0 ≤ |p.posNow| := abs_nonneg _
        exact max_le (by omega) (by omega)
    · rw [if_neg h2]
      apply volGuard_none _ _ hmbm
      have := min_le_left (lotsByAvailable p) (lotsTarget p)
      omega

/-- From flat (or an opposite position) the buy sizer emits exactly the
minimum of the two lot caps, never below the venue minimum. -/
theorem sizeVolBuy_flat (p : SizeParams) (vol : ℤ) (hpn : ¬ 0 < p.posNow)
    (h : sizeVolBuy p = some vol) :
    vol = min (lotsByAvailable p) (lotsTarget p) ∧ p.minVol ≤ vol := by
  unfold sizeVolBuy at h
  rw [if_neg (by tauto), if_neg hpn] at h
  have hlt := minVol_le_lotsTarget p
  unfold volGuard at h
  by_cases g1 : min (lotsByAvailable p) (lotsTarget p) < p.minVol
  · rw [if_pos g1] at h
    by_cases g2 : lotsByAvailable p < p.minVol
    · rw [if_pos g2] at h
      exact absurd h (by simp)
    · exfalso
      have : p.minVol ≤ min (lotsByAvailable p) (lotsTarget p) :=
        le_min (le_of_not_lt g2) hlt
      omega
  · rw [if_neg g1, Option.some.injEq] at h
    exact ⟨h.symm, by omega⟩

/-- Mirror of `sizeVolBuy_flat` for the sell branch. -/
theorem sizeVolSell_flat (p : SizeParams) (vol : ℤ) (hpn : ¬ p.posNow < 0)
    (h : sizeVolSell p = some vol) :
    vol = min (lotsByAvailable p) (lotsTarget p) ∧ p.minVol ≤ vol := by
  unfold sizeVolSell at h
  rw [if_neg (by tauto), if_neg hpn] at h
  have hlt := minVol_le_lotsTarget p
  unfold volGuard at h
  by_cases g1 : min (lotsByAvailable p) (lotsTarget p) < p.minVol
  · rw [if_pos g1] at h
    by_cases g2 : lotsByAvailable p < p.minVol
    · rw [if_pos g2] at h
      exact absurd h (by simp)
    · exfalso
      have : p.minVol ≤ min (lotsByAvailable p) (lotsTarget p) :=
        le_min (le_of_not_lt g2) hlt
      omega
  · rw [if_neg g1, Option.some.injEq] at h
    exact ⟨h.symm, by omega⟩

/-- Pyramiding onto a long: the emitted increment is nonnegative and the
available-funds cap meets the venue minimum. -/
theorem sizeVolBuy_pyr (p : SizeParams) (vol : ℤ) (hpn : 0 < p.posNow)
    (hav0 : 0 ≤ p.available) (hmv : 1 ≤ p.minVol)
    (h : sizeVolBuy p = some vol) :
    0 ≤ vol ∧ p.minVol ≤ lotsByAvailable p := by
  have hmbm0 : 0 ≤ lotsByAvailable p := lotsByAvailable_nonneg p hav0
  have habs : 1 ≤ |p.posNow| := by
    rw [abs_of_pos hpn]
    omega
  unfold sizeVolBuy at h
  by_cases h1 : 0 < p.posNow ∧ ¬ p.allowPyramid
  · rw [if_pos h1] at h
    exact absurd h (by simp)
  · rw [if_neg h1, if_pos hpn] at h
    by_cases h3 : lotsTarget p ≤ |p.posNow|
    · rw [if_pos h3] at h
      exact absurd h (by simp)
    · rw [if_neg h3] at h
      have hv0b : max 0 (min (lotsByAvailable p) (lotsTarget p) - |p.posNow|) ≤ lotsByAvailable p := by
        apply max_le hmbm0
        have := min_le_left (lotsByAvailable p) (lotsTarget p)
        omega
      have hv00 : 0 ≤ max 0 (min (lotsByAvailable p) (lotsTarget p) - |p.posNow|) :=
        le_max_left _ _
      rcases volGuard_some p _ vol h with hc | ⟨hceq, hcb, _⟩
      · refine ⟨by omega, ?_⟩
        unfold volGuard at h
        by_cases g1 : max 0 (min (lotsByAvailable p) (lotsTarget p) - |p.posNow|) < p.minVol
        · rw [if_pos g1] at h
          by_cases g2 : lotsByAvailable p < p.minVol
          · rw [if_pos g2] at h
            exact absurd h (by simp)
          · omega
        · omega
      · exact ⟨by omega, hcb⟩

/-- Mirror of `sizeVolBuy_pyr` for pyramiding onto a short. -/
theorem sizeVolSell_pyr (p : SizeParams) (vol : ℤ) (hpn : p.posNow < 0)
    (hav0 : 0 ≤ p.available) (hmv : 1 ≤ p.minVol)
    (h : sizeVolSell p = some vol) :
    0 ≤ vol ∧ p.minVol ≤ lotsByAvailable p := by
  have hmbm0 : 0 ≤ lotsByAvailable p := lotsByAvailable_nonneg p hav0
  have habs : 1 ≤ |p.posNow| := by
    rw [abs_of_neg hpn]
    omega
  unfold sizeVolSell at h
  by_cases h1 : p.posNow < 0 ∧ ¬ p.allowPyramid
  · rw [if_pos h1] at h
    exact absurd h (by simp)
  · rw [if_neg h1, if_pos hpn] at h
    by_cases h3 : lotsTarget p ≤ |p.posNow|
    · rw [if_pos h3] at h
      exact absurd h (by simp)
    · rw [if_neg h3] at h
      have hv0b : max 0 (min (lotsByAvailable p) (lotsTarget p) - |p.posNow|) ≤ lotsByAvailable p := by
        apply max_le hmbm0
        have := min_le_left (lotsByAvailable p) (lotsTarget p)
        omega
      have hv00 : 0 ≤ max 0 (min (lotsByAvailable p) (lotsTarget p) - |p.posNow|) :=
        le_max_left _ _
      rcases volGuard_some p _ vol h with hc | ⟨hceq, hcb, _⟩
      · refine ⟨by omega, ?_⟩
        unfold volGuard at h
        by_cases g1 : max 0 (min (lotsByAvailable p) (lotsTarget p) - |p.posNow|) < p.minVol
        · rw [if_pos g1] at h
          by_cases g2 : lotsByAvailable p < p.minVol
          · rw [if_pos g2] at h
            exact absurd h (by simp)
          · omega
        · omega
      · exact ⟨by omega, hcb⟩

/-- Any successfully sized buy leaves the post-trade guarantee ratio at or
above the configured floor, with positive post-trade margin. -/
theorem execBuy_guarantee (p : SizeParams) (um : ℚ) (r : SizeResult)
    (hav : p.available = max 0 (p.equity - um)) (hum : 0 ≤ um)
    (humpos : p.posNow ≠ 0 → 0 < um) (hmv : 1 ≤ p.minVol)
    (h : execBuy p = some r) :
    0 < r.marginPost ∧ p.minGR ≤ p.equity / r.marginPost := by
  have hav0 : 0 ≤ p.available := by
    rw [hav]
    exact le_max_left _ _
  unfold execBuy at h
  by_cases hno : p.orderPrice * p.mult ≤ 0
  · rw [if_pos hno] at h
    exact absurd h (by simp)
  rw [if_neg hno] at h
  rcases hsv : sizeVolBuy p with _ | vol
  · rw [hsv] at h
    exact absurd h (by simp)
  rw [hsv] at h
  simp only at h
  have havne : p.available ≠ 0 := by
    intro h0
    rw [sizeVolBuy_avail_zero p hmv h0] at hsv
    exact absurd hsv (by simp)
  have hused : p.equity - p.available = um ∧ 0 < p.available := by
    rcases le_or_lt (p.equity - um) 0 with hle | hlt
    · exact absurd (by rw [hav, max_eq_left hle]) havne
    · constructor
      · rw [hav, max_eq_right (le_of_lt hlt)]
        ring
      · rw [hav, max_eq_right (le_of_lt hlt)]
        exact hlt
  have hmpl : 0 < p.orderPrice * p.mult * max (1/100) p.mr := by
    have h1 : 0 < p.orderPrice * p.mult := lt_of_not_le hno
    have h2 : (0:ℚ) < max (1/100) p.mr := lt_of_lt_of_le (by norm_num) (le_max_left _ _)
    exact mul_pos h1 h2
  have hMpos : 0 < p.equity - p.available + (vol : ℚ) * (p.orderPrice * p.mult * max (1/100) p.mr) := by
    rcases lt_or_le 0 p.posNow with hpn | hpn
    · obtain ⟨hv0, _⟩ := sizeVolBuy_pyr p vol hpn hav0 hmv hsv
      have hum' : 0 < um := humpos (by omega)
      have hvq : (0:ℚ) ≤ (vol:ℚ) := by exact_mod_cast hv0
      nlinarith [mul_nonneg hvq (le_of_lt hmpl), hused.1]
    · obtain ⟨_, hvmin⟩ := sizeVolBuy_flat p vol (not_lt.mpr hpn) hsv
      have hv1 : (1:ℚ) ≤ (vol:ℚ) := by exact_mod_cast le_trans hmv hvmin
      nlinarith [mul_le_mul_of_nonneg_right hv1 (le_of_lt hmpl), hused.1]
  rw [if_pos hMpos] at h
  by_cases hgr : p.equity / (p.equity - p.available + (vol : ℚ) * (p.orderPrice * p.mult * max (1/100) p.mr)) < p.minGR
  · rw [if_pos hgr] at h
    exact absurd h (by simp)
  · rw [if_neg hgr, Option.some.injEq] at h
    rw [← h]
    exact ⟨hMpos, le_of_not_lt hgr⟩

/-- Mirror of `execBuy_guarantee` for the sell branch. -/
theorem execSell_guarantee (p : SizeParams) (um : ℚ) (r : SizeResult)
    (hav : p.available = max 0 (p.equity - um)) (hum : 0 ≤ um)
    (humpos : p.posNow ≠ 0 → 0 < um) (hmv : 1 ≤ p.minVol)
    (h : execSell p = some r) :
    0 < r.marginPost ∧ p.minGR ≤ p.equity / r.marginPost := by
  have hav0 : 0 ≤ p.available := by
    rw [hav]
    exact le_max_left _ _
  unfold execSell at h
  by_cases hno : p.orderPrice * p.mult ≤ 0
  · rw [if_pos hno] at h
    exact absurd h (by simp)
  rw [if_neg hno] at h
  rcases hsv : sizeVolSell p with _ | vol
  · rw [hsv] at h
    exact absurd h (by simp)
  rw [hsv] at h
  simp only at h
  have havne : p.available ≠ 0 := by
    intro h0
    rw [sizeVolSell_avail_zero p hmv h0] at hsv
    exact absurd hsv (by simp)
  have hused : p.equity - p.available = um ∧ 0 < p.available := by
    rcases le_or_lt (p.equity - um) 0 with hle | hlt
    · exact absurd (by rw [hav, max_eq_left hle]) havne
    · constructor
      · rw [hav, max_eq_right (le_of_lt hlt)]
        ring
      · rw [hav, max_eq_right (le_of_lt hlt)]
        exact hlt
  have hmpl : 0 < p.orderPrice * p.mult * max (1/100) p.mr := by
    have h1 : 0 < p.orderPrice * p.mult := lt_of_not_le hno
    have h2 : (0:ℚ) < max (1/100) p.mr := lt_of_lt_of_le (by norm_num) (le_max_left _ _)
    exact mul_pos h1 h2
  have hMpos : 0 < p.equity - p.available + (vol : ℚ) * (p.orderPrice * p.mult * max (1/100) p.mr) := by
    rcases lt_or_le p.posNow 0 with hpn | hpn
    · obtain ⟨hv0, _⟩ := sizeVolSell_pyr p vol hpn hav0 hmv hsv
      have hum' : 0 < um := humpos (by omega)
      have hvq : (0:ℚ) ≤ (vol:ℚ) := by exact_mod_cast hv0
      nlinarith [mul_nonneg hvq (le_of_lt hmpl), hused.1]
    · obtain ⟨_, hvmin⟩ := sizeVolSell_flat p vol (not_lt.mpr hpn) hsv
      have hv1 : (1:ℚ) ≤ (vol:ℚ) := by exact_mod_cast le_trans hmv hvmin
      nlinarith [mul_le_mul_of_nonneg_right hv1 (le_of_lt hmpl), hused.1]
  rw [if_pos hMpos] at h
  by_cases hgr : p.equity / (p.equity - p.available + (vol : ℚ) * (p.orderPrice * p.mult * max (1/100) p.mr)) < p.minGR
  · rw [if_pos hgr] at h
    exact absurd h (by simp)
  · rw [if_neg hgr, Option.some.injEq] at h
    rw [← h]
    exact ⟨hMpos, le_of_not_lt hgr⟩

/-- C2: for every buy or sell decision that results in an order, the
post-trade guarantee ratio `equity / (usedMargin + newMargin)` — with
`usedMargin = equity - available` as the executor computes it and
`available = max 0 (equity - usedMargin)` as `estimate_account` supplies
it — is at least the configured floor `Config.MIN_GUARANTEE_RATIO`; the
post-trade margin is positive on every order-placing path. -/
theorem guarantee_ratio_floor (p : SizeParams) (um : ℚ) (rb rs : SizeResult)
    (hav : p.available = max 0 (p.equity - um)) (hum : 0 ≤ um)
    (humpos : p.posNow ≠ 0 → 0 < um) (hmv : 1 ≤ p.minVol) :
    (execBuy p = some rb → 0 < rb.marginPost ∧ p.minGR ≤ p.equity / rb.marginPost) ∧
    (execSell p = some rs → 0 < rs.marginPost ∧ p.minGR ≤ p.equity / rs.marginPost) :=
  ⟨fun h => execBuy_guarantee p um rb hav hum humpos hmv h,
   fun h => execSell_guarantee p um rs hav hum humpos hmv h⟩

/-- Witness for C5 at the scenario input (entry 550, oracle stop 545,
tick 0.1, 5 minimum ticks, zero ATR). -/
theorem stop_loss_orientation_witness :
    ((0 : ℚ) < 1/10 ∧ (1 : ℤ) ≤ 5) ∧
    ((guardStopBuy 550 545 0 (1/10) 5 (1/4) < 550 ∧
      max (max 0 (550 - 545)) (max ((5 : ℤ) * (1/10 : ℚ)) (0 * (1/4))) ≤
        550 - guardStopBuy 550 545 0 (1/10) 5 (1/4)) ∧
     (550 < guardStopSell 550 545 0 (1/10) 5 (1/4) ∧
      max (max 0 (545 - 550)) (max ((5 : ℤ) * (1/10 : ℚ)) (0 * (1/4))) ≤
        guardStopSell 550 545 0 (1/10) 5 (1/4) - 550)) :=
  ⟨⟨by norm_num, by norm_num⟩,
    stop_loss_orientation 550 545 0 (1/10) 5 (1/4) (by norm_num) (by norm_num)⟩

/-- A successfully placed buy order carries exactly the volume the sizer
selected. -/
theorem execBuy_some_vol (p : SizeParams) (r : SizeResult) (h : execBuy p = some r) :
    sizeVolBuy p = some r.vol := by
  unfold execBuy at h
  by_cases hno : p.orderPrice * p.mult ≤ 0
  · rw [if_pos hno] at h
    exact absurd h (by simp)
  rw [if_neg hno] at h
  rcases hsv : sizeVolBuy p with _ | vol
  · rw [hsv] at h
    exact absurd h (by simp)
  rw [hsv] at h
  simp only at h
  repeat' split at h
  all_goals
    first
      | exact Option.noConfusion h
      | (rw [Option.some.injEq] at h
         rw [← h]
         try exact hsv)

/-- Mirror of `execBuy_some_vol` for the sell branch. -/
theorem execSell_some_vol (p : SizeParams) (r : SizeResult) (h : execSell p = some r) :
    sizeVolSell p = some r.vol := by
  unfold execSell at h
  by_cases hno : p.orderPrice * p.mult ≤ 0
  · rw [if_pos hno] at h
    exact absurd h (by simp)
  rw [if_neg hno] at h
  rcases hsv : sizeVolSell p with _ | vol
  · rw [hsv] at h
    exact absurd h (by simp)
  rw [hsv] at h
  simp only at h
  repeat' split at h
  all_goals
    first
      | exact Option.noConfusion h
      | (rw [Option.some.injEq] at h
         rw [← h]
         try exact hsv)

/-- C3 (amended): for an open from flat the final lot count is the
minimum of the available-funds lot cap and the budget-derived lot count
raised to the venue minimum — `min(availLots, max(minVol, budgetLots))` —
and is never below the venue minimum; the sizer rejects with a
funding-insufficient `return` exactly when the available-funds cap cannot
even cover the venue minimum.  (The budget-derived count alone being 0
does not cause a rejection: it is bumped up to the minimum, as the
counterexample at the spec scenario shows.) -/
theorem sizing_open_from_flat (p : SizeParams) (rb rs : SizeResult)
    (hmv : 1 ≤ p.minVol) (hflat : p.posNow = 0) :
    (execBuy p = some rb →
       rb.vol = min (lotsByAvailable p) (max p.minVol (lotsBudget p)) ∧ p.minVol ≤ rb.vol) ∧
    (lotsByAvailable p < p.minVol → execBuy p = none) ∧
    (execSell p = some rs →
       rs.vol = min (lotsByAvailable p) (max p.minVol (lotsBudget p)) ∧ p.minVol ≤ rs.vol) ∧
    (lotsByAvailable p < p.minVol → execSell p = none) := by
  refine ⟨?_, ?_, ?_, ?_⟩
  · intro h
    have hv := execBuy_some_vol p rb h
    obtain ⟨heq, hge⟩ := sizeVolBuy_flat p rb.vol (by omega) hv
    exact ⟨heq, hge⟩
  · intro hlt
    unfold execBuy
    by_cases hno : p.orderPrice * p.mult ≤ 0
    · rw [if_pos hno]
    · rw [if_neg hno]
      have hnone : sizeVolBuy p = none := by
        unfold sizeVolBuy
        rw [if_neg (fun hc => absurd hc.1 (by omega)), if_neg (by omega)]
        exact volGuard_none p _ hlt (min_le_left _ _)
      rw [hnone]
  · intro h
    have hv := execSell_some_vol p rs h
    obtain ⟨heq, hge⟩ := sizeVolSell_flat p rs.vol (by omega) hv
    exact ⟨heq, hge⟩
  · intro hlt
    unfold execSell
    by_cases hno : p.orderPrice * p.mult ≤ 0
    · rw [if_pos hno]
    · rw [if_neg hno]
      have hnone : sizeVolSell p = none := by
        unfold sizeVolSell
        rw [if_neg (fun hc => absurd hc.1 (by omega)), if_neg (by omega)]
        exact volGuard_none p _ hlt (min_le_left _ _)
      rw [hnone]

/-- Witness for the amended C3 at the scenario sizing inputs. -/
theorem sizing_open_from_flat_witness :
    ((1 : ℤ) ≤ scenParams.minVol ∧ scenParams.posNow = 0) ∧
    ((execBuy scenParams = some scenBuyResult →
        scenBuyResult.vol = min (lotsByAvailable scenParams)
          (max scenParams.minVol (lotsBudget scenParams)) ∧
        scenParams.minVol ≤ scenBuyResult.vol) ∧
     (lotsByAvailable scenParams < scenParams.minVol → execBuy scenParams = none) ∧
     (execSell scenParams = some scenBuyResult →
        scenBuyResult.vol = min (lotsByAvailable scenParams)
          (max scenParams.minVol (lotsBudget scenParams)) ∧
        scenParams.minVol ≤ scenBuyResult.vol) ∧
     (lotsByAvailable scenParams < scenParams.minVol → execSell scenParams = none)) := by
  have h1 : (1 : ℤ) ≤ scenParams.minVol := by
    norm_num [scenParams, sizeParamsFor, mkSizeParams, scenEnv]
  have h2 : scenParams.posNow = 0 := by
    norm_num [scenParams, sizeParamsFor, mkSizeParams, scenFlatState]
  exact ⟨⟨h1, h2⟩, sizing_open_from_flat scenParams scenBuyResult scenBuyResult h1 h2⟩

/-- C3 counterexample: at the spec's own scenario (equity 200,000, price
550, multiplier 1000, margin ratio 0.14, buffer 1.12, requested size 0.3)
the budget-derived lot count floors to 0, yet the sizer does not reject:
it bumps the target to the venue minimum and the execution path places a
1-lot buy order. -/
theorem sizing_scenario_cex :
    lotsBudget scenParams = 0 ∧
    (execute_decision scenEnv scenFlatState scenDecision 550).1 = [OrderAct.buy 550 1] := by
  constructor
  · norm_num [lotsBudget, needMinPerLot, scenParams, sizeParamsFor, mkSizeParams,
      estimateAccount, effectivePlan, effectiveSizePct, orderPriceFor, choosePrice,
      normalizePrice, alignPrice, roundHalfUpQ, normalizeSignal, truncQ, epsQ,
      TRADER_RULEBOOK, scenEnv, scenFlatState, scenDecision]
  · norm_num +decide [execute_decision, execBuy, execSell, sizeVolBuy, sizeVolSell, volGuard, lotsByAvailable,
    lotsTarget, lotsBudget, needMinPerLot, sizeParamsFor, mkSizeParams, estimateAccount,
    effectivePlan, effectiveSizePct, orderPriceFor, choosePrice, normalizePrice, alignPrice,
    roundHalfUpQ, normalizeSignal, truncQ, epsQ, TRADER_RULEBOOK, guardStopBuy, guardStopSell,
    is_ai_insane, reentryBlocked, gapBlocked, applyOpenLong, applyOpenShort, applyClose, scenEnv, scenFlatState, scenDecision]

/-- Witness for C2 at the scenario input (the 1-lot buy leaves the ratio
200000 / 77000 above the 1.15 floor). -/
theorem guarantee_ratio_floor_witness :
    (scenParams.available = max 0 (scenParams.equity - 0) ∧ (0:ℚ) ≤ (0:ℚ) ∧
      (scenParams.posNow ≠ 0 → (0:ℚ) < 0) ∧ (1:ℤ) ≤ scenParams.minVol) ∧
    ((execBuy scenParams = some scenBuyResult →
        0 < scenBuyResult.marginPost ∧
        scenParams.minGR ≤ scenParams.equity / scenBuyResult.marginPost) ∧
     (execSell scenParams = some scenBuyResult →
        0 < scenBuyResult.marginPost ∧
        scenParams.minGR ≤ scenParams.equity / scenBuyResult.marginPost)) := by
  have h1 : scenParams.available = max 0 (scenParams.equity - 0) := by
    norm_num [scenParams, sizeParamsFor, mkSizeParams, estimateAccount, scenEnv, scenFlatState]
  have h3 : scenParams.posNow ≠ 0 → (0:ℚ) < 0 := by
    intro hne
    exact absurd (by norm_num [scenParams, sizeParamsFor, mkSizeParams, scenFlatState]) hne
  have h4 : (1:ℤ) ≤ scenParams.minVol := by
    norm_num [scenParams, sizeParamsFor, mkSizeParams, scenEnv]
  exact ⟨⟨h1, le_refl 0, h3, h4⟩,
    guarantee_ratio_floor scenParams 0 scenBuyResult scenBuyResult h1 (le_refl 0) h3 h4⟩

/-- The executor's outcomes: rejection, single-side flatten, a sized buy,
a sized sell, or the close branch. -/
theorem execute_decision_cases (env : Env) (st : SymState) (d : Decision) (px : ℚ) :
    (execute_decision env st d px = ([], st)) ∨
    (execute_decision env st d px = ([OrderAct.targetPos 0], { st with currentPlanId := none })) ∨
    (∃ r, execBuy (sizeParamsFor env st d true px) = some r ∧
       execute_decision env st d px =
         ([OrderAct.buy r.price r.vol],
          applyOpenLong env st (effectivePlan env d) (d.cooldownMinutes.getD 0) r)) ∨
    (∃ r, execSell (sizeParamsFor env st d false px) = some r ∧
       execute_decision env st d px =
         ([OrderAct.short r.price r.vol],
          applyOpenShort env st (effectivePlan env d) (d.cooldownMinutes.getD 0) r)) ∨
    (execute_decision env st d px =
       ([OrderAct.targetPos 0], applyClose env st px (d.cooldownMinutes.getD 0))) := by
  simp only [execute_decision]
  by_cases h1 : is_ai_insane env.rb
      { signal := normalizeSignal d.signal, confidence := d.confidence
        tradePlan := some (effectivePlan env d), cooldownMinutes := d.cooldownMinutes } px = true
  · rw [if_pos h1]
    left
    rfl
  rw [if_neg h1]
  by_cases h2 : d.confidence.getD 0 < env.minConfidence
  · rw [if_pos h2]
    left
    rfl
  rw [if_neg h2]
  by_cases h3 : (normalizeSignal d.signal = "buy" ∨ normalizeSignal d.signal = "sell") ∧
      st.localPos = 0 ∧ reentryBlocked st env.now = true
  · rw [if_pos h3]
    left
    rfl
  rw [if_neg h3]
  by_cases h4 : (normalizeSignal d.signal = "buy" ∨ normalizeSignal d.signal = "sell") ∧
      st.localPos = 0 ∧ 0 < env.gapTicks ∧ 0 < env.tick ∧
      gapBlocked st px env.gapTicks env.tick = true
  · rw [if_pos h4]
    left
    rfl
  rw [if_neg h4]
  by_cases h5 : env.singleSide = true ∧ normalizeSignal d.signal = "sell" ∧ 0 < st.localPos
  · rw [if_pos h5]
    right; left
    rfl
  rw [if_neg h5]
  by_cases h6 : env.singleSide = true ∧ normalizeSignal d.signal = "buy" ∧ st.localPos < 0
  · rw [if_pos h6]
    right; left
    rfl
  rw [if_neg h6]
  by_cases h7 : normalizeSignal d.signal = "buy"
  · rw [if_pos h7]
    rcases hb : execBuy (sizeParamsFor env st d true px) with _ | r
    · left
      rfl
    · right; right; left
      exact ⟨r, rfl, rfl⟩
  rw [if_neg h7]
  by_cases h8 : normalizeSignal d.signal = "sell"
  · rw [if_pos h8]
    rcases hs : execSell (sizeParamsFor env st d false px) with _ | r
    · left
      rfl
    · right; right; right; left
      exact ⟨r, rfl, rfl⟩
  rw [if_neg h8]
  by_cases h9 : normalizeSignal d.signal = "close"
  · rw [if_pos h9]
    right; right; right; right
    rfl
  · rw [if_neg h9]
    left
    rfl

/-- The fuse never trips for a non-entry signal. -/
theorem is_ai_insane_other (rb : Rulebook) (d : Decision) (px : ℚ)
    (h1 : d.signal ≠ "buy") (h2 : d.signal ≠ "sell") :
    is_ai_insane rb d px = false := by
  unfold is_ai_insane
  rw [if_neg]
  intro hc
  rcases hc with hc | hc
  · exact h1 hc
  · exact h2 hc

/-- C4 (amended): a buy/sell decision whose fractional size exceeds the
configured maximum position fraction trips the fuse inside
`execute_decision`: the decision is discarded, no order action is
performed and the per-symbol state is untouched.  (A size of 0 or less
does not reach the fuse with that size: the executor first backfills an
adaptive default, as the counterexample shows, so only the oversize half
of the claim survives end to end.) -/
theorem gate_oversize_discarded (env : Env) (st : SymState) (d : Decision) (px : ℚ)
    (hsig : normalizeSignal d.signal = "buy" ∨ normalizeSignal d.signal = "sell")
    (hmax : 0 ≤ env.rb.maxPositionPct)
    (hsz : env.rb.maxPositionPct <
      (d.tradePlan.getD TradePlan.default).positionSizePct.getD 0) :
    execute_decision env st d px = ([], st) := by
  have hplan : effectivePlan env d = d.tradePlan.getD TradePlan.default := by
    unfold effectivePlan
    rw [if_neg]
    intro hc
    have := hc.2
    linarith
  have hins : is_ai_insane env.rb
      { signal := normalizeSignal d.signal, confidence := d.confidence
        tradePlan := some (effectivePlan env d), cooldownMinutes := d.cooldownMinutes } px = true := by
    simp only [is_ai_insane, Option.getD_some, hplan]
    rw [if_pos hsig, if_pos (Or.inr hsz)]
  simp only [execute_decision]
  rw [if_pos hins]

/-- Witness for the amended C4: a buy decision of size 0.7 against the
0.6 maximum is dropped with no order and no state change. -/
theorem gate_oversize_discarded_witness :
    ((normalizeSignal oversizeDecision.signal = "buy" ∨
        normalizeSignal oversizeDecision.signal = "sell") ∧
      (0 : ℚ) ≤ scenEnv.rb.maxPositionPct ∧
      scenEnv.rb.maxPositionPct <
        (oversizeDecision.tradePlan.getD TradePlan.default).positionSizePct.getD 0) ∧
    execute_decision scenEnv scenFlatState oversizeDecision 550 = ([], scenFlatState) := by
  have hsig : normalizeSignal oversizeDecision.signal = "buy" ∨
      normalizeSignal oversizeDecision.signal = "sell" := by
    left
    decide
  have hmax : (0 : ℚ) ≤ scenEnv.rb.maxPositionPct := by
    norm_num [scenEnv, TRADER_RULEBOOK]
  have hsz : scenEnv.rb.maxPositionPct <
      (oversizeDecision.tradePlan.getD TradePlan.default).positionSizePct.getD 0 := by
    norm_num [scenEnv, TRADER_RULEBOOK, oversizeDecision]
  exact ⟨⟨hsig, hmax, hsz⟩,
    gate_oversize_discarded scenEnv scenFlatState oversizeDecision 550 hsig hmax hsz⟩

/-- C4 counterexample: a buy decision with fractional size 0 is insane by
the gate function alone, yet the execution path backfills the size and
places a 1-lot order — the decision is not discarded and an order action
is performed. -/
theorem gate_zero_size_cex :
    is_ai_insane TRADER_RULEBOOK zeroSizeDecision 550 = true ∧
    (execute_decision scenEnv scenFlatState zeroSizeDecision 550).1 = [OrderAct.buy 550 1] := by
  constructor
  · norm_num +decide [is_ai_insane, zeroSizeDecision, TRADER_RULEBOOK]
  · norm_num +decide [execute_decision, execBuy, execSell, sizeVolBuy, sizeVolSell, volGuard, lotsByAvailable,
    lotsTarget, lotsBudget, needMinPerLot, sizeParamsFor, mkSizeParams, estimateAccount,
    effectivePlan, effectiveSizePct, orderPriceFor, choosePrice, normalizePrice, alignPrice,
    roundHalfUpQ, normalizeSignal, truncQ, epsQ, TRADER_RULEBOOK, guardStopBuy, guardStopSell,
    is_ai_insane, reentryBlocked, gapBlocked, applyOpenLong, applyOpenShort, applyClose, scenEnv, scenFlatState, zeroSizeDecision]

/-- C7 (amended): when a buy order is emitted onto the current state the
executor overwrites the stored average entry price with the new order
price (it does not take the lot-weighted average) and adds the order
volume to the lot count; mirrored for sell. -/
theorem executor_overwrites_avg (env : Env) (st : SymState) (d : Decision) (px : ℚ)
    (p : ℚ) (v : ℤ) :
    ((execute_decision env st d px).1 = [OrderAct.buy p v] →
       (execute_decision env st d px).2.avgPrice = p ∧
       (execute_decision env st d px).2.localPos = st.localPos + v) ∧
    ((execute_decision env st d px).1 = [OrderAct.short p v] →
       (execute_decision env st d px).2.avgPrice = p ∧
       (execute_decision env st d px).2.localPos = st.localPos - v) := by
  rcases execute_decision_cases env st d px with hc | hc | ⟨r, _, hc⟩ | ⟨r, _, hc⟩ | hc <;>
    rw [hc] <;>
    constructor <;>
    intro h <;>
    simp_all [applyOpenLong, applyOpenShort, applyClose]

/-- Witness for the amended C7 at the pyramiding example: 2 lots at 500
plus a 12-lot add at 550 leaves `avg_price = 550` and 14 lots. -/
theorem executor_overwrites_avg_witness :
    (execute_decision pyrEnv pyrState pyrDecision 550).1 = [OrderAct.buy 550 12] ∧
    ((execute_decision pyrEnv pyrState pyrDecision 550).2.avgPrice = 550 ∧
     (execute_decision pyrEnv pyrState pyrDecision 550).2.localPos = pyrState.localPos + 12) := by
  have hbuy : (execute_decision pyrEnv pyrState pyrDecision 550).1 = [OrderAct.buy 550 12] := by
    norm_num +decide [execute_decision, execBuy, execSell, sizeVolBuy, sizeVolSell, volGuard, lotsByAvailable,
    lotsTarget, lotsBudget, needMinPerLot, sizeParamsFor, mkSizeParams, estimateAccount,
    effectivePlan, effectiveSizePct, orderPriceFor, choosePrice, normalizePrice, alignPrice,
    roundHalfUpQ, normalizeSignal, truncQ, epsQ, TRADER_RULEBOOK, guardStopBuy, guardStopSell,
    is_ai_insane, reentryBlocked, gapBlocked, applyOpenLong, applyOpenShort, applyClose, pyrEnv, pyrState, pyrDecision, scenEnv, scenFlatState]
  exact ⟨hbuy, (executor_overwrites_avg pyrEnv pyrState pyrDecision 550 550 12).1 hbuy⟩

/-- C7 counterexample: pyramiding 12 lots at 550 onto 2 lots at average
500 stores average price 550, not the lot-weighted average
`(2*500 + 12*550) / 14`. -/
theorem pyramid_avg_cex :
    (execute_decision pyrEnv pyrState pyrDecision 550).1 = [OrderAct.buy 550 12] ∧
    (execute_decision pyrEnv pyrState pyrDecision 550).2.avgPrice = 550 ∧
    ((550 : ℚ) ≠ (2 * 500 + 12 * 550) / (2 + 12)) := by
  refine ⟨?_, ?_, by norm_num⟩ <;>
    norm_num +decide [execute_decision, execBuy, execSell, sizeVolBuy, sizeVolSell, volGuard, lotsByAvailable,
    lotsTarget, lotsBudget, needMinPerLot, sizeParamsFor, mkSizeParams, estimateAccount,
    effectivePlan, effectiveSizePct, orderPriceFor, choosePrice, normalizePrice, alignPrice,
    roundHalfUpQ, normalizeSignal, truncQ, epsQ, TRADER_RULEBOOK, guardStopBuy, guardStopSell,
    is_ai_insane, reentryBlocked, gapBlocked, applyOpenLong, applyOpenShort, applyClose, pyrEnv, pyrState, pyrDecision, scenEnv, scenFlatState]

/-- C8 (amended): executing a `close` decision on a flat position is not
a pure no-op: the executor still emits a target-0 order, records the
exit price and time, arms the reentry window `now + REENTRY_COOLDOWN_SECS`
(and the cooldown timer when the decision carries one), while lots stay 0,
the average price is reset to 0 and the stored decision and plan id are
left unchanged; no error is raised. -/
theorem flat_close_behavior (env : Env) (st : SymState) (d : Decision) (px : ℚ)
    (hflat : st.localPos = 0)
    (hsig : normalizeSignal d.signal = "close")
    (hconf : env.minConfidence ≤ d.confidence.getD 0) :
    execute_decision env st d px =
      ([OrderAct.targetPos 0], applyClose env st px (d.cooldownMinutes.getD 0)) := by
  have hnb : normalizeSignal d.signal ≠ "buy" := by
    rw [hsig]
    decide
  have hns : normalizeSignal d.signal ≠ "sell" := by
    rw [hsig]
    decide
  have hins : is_ai_insane env.rb
      { signal := normalizeSignal d.signal, confidence := d.confidence
        tradePlan := some (effectivePlan env d), cooldownMinutes := d.cooldownMinutes } px = false :=
    is_ai_insane_other _ _ _ hnb hns
  simp only [execute_decision]
  rw [if_neg (by rw [hins]; simp)]
  rw [if_neg (not_lt.mpr hconf)]
  rw [if_neg (fun hc => hc.1.elim hnb hns)]
  rw [if_neg (fun hc => hc.1.elim hnb hns)]
  rw [if_neg (fun hc => hns hc.2.1)]
  rw [if_neg (fun hc => hnb hc.2.1)]
  rw [if_neg hnb, if_neg hns, if_pos hsig]

/-- Witness for the amended C8 at the scenario state. -/
theorem flat_close_behavior_witness :
    (scenFlatState.localPos = 0 ∧ normalizeSignal closeDecision.signal = "close" ∧
      scenEnv.minConfidence ≤ closeDecision.confidence.getD 0) ∧
    execute_decision scenEnv scenFlatState closeDecision 550 =
      ([OrderAct.targetPos 0], applyClose scenEnv scenFlatState 550 (closeDecision.cooldownMinutes.getD 0)) := by
  have h1 : scenFlatState.localPos = 0 := by norm_num [scenFlatState]
  have h2 : normalizeSignal closeDecision.signal = "close" := by decide
  have h3 : scenEnv.minConfidence ≤ closeDecision.confidence.getD 0 := by
    norm_num [scenEnv, closeDecision]
  exact ⟨⟨h1, h2, h3⟩, flat_close_behavior scenEnv scenFlatState closeDecision 550 h1 h2 h3⟩

set_option maxHeartbeats 1000000 in
/-- C8 counterexample: a `close` decision on a flat, timer-free state
emits a target-0 order and sets `reentry_until`, so position, plan and
cooldown state do not all remain unchanged and an order action is
emitted. -/
theorem flat_close_not_noop_cex :
    (execute_decision scenEnv scenFlatState closeDecision 550).1 = [OrderAct.targetPos 0] ∧
    (execute_decision scenEnv scenFlatState closeDecision 550).2.reentryUntil = some 1120 ∧
    scenFlatState.reentryUntil = none := by
  refine ⟨?_, ?_, rfl⟩ <;>
    norm_num +decide [execute_decision, execBuy, execSell, sizeVolBuy, sizeVolSell, volGuard, lotsByAvailable,
    lotsTarget, lotsBudget, needMinPerLot, sizeParamsFor, mkSizeParams, estimateAccount,
    effectivePlan, effectiveSizePct, orderPriceFor, choosePrice, normalizePrice, alignPrice,
    roundHalfUpQ, normalizeSignal, truncQ, epsQ, TRADER_RULEBOOK, guardStopBuy, guardStopSell,
    is_ai_insane, reentryBlocked, gapBlocked, applyOpenLong, applyOpenShort, applyClose, scenEnv, scenFlatState, closeDecision]

/-- C9 (amended): on a hard-stop breach in either direction (long
position with price at or below the stored non-zero stop, or short
position with price at or above it, no force-close pending) the risk
heartbeat emits a flatten, resets lots and average price to zero,
records the exit and sets `reentry_until = now + REENTRY_COOLDOWN_SECS`,
but leaves the stored decision (`ai_decision`) and plan id in place — it
does not clear them. -/
theorem heartbeat_hard_stop (env : Env) (maxDaily : ℚ) (st : SymState) (px : ℚ)
    (ta : Bool) (sl : ℚ)
    (hsl : storedStop st = some sl) (hne : sl ≠ 0) :
    (0 < st.localPos → px ≤ sl →
      risk_heartbeat env false maxDaily st px ta =
        { orders := [OrderAct.targetPos 0]
          st := { st with
                  localPos := 0
                  avgPrice := 0
                  lastExitPrice := some px
                  lastExitTime := some env.now
                  reentryUntil := some (env.now + env.reentrySecs) }
          tradingAllowed := ta }) ∧
    (st.localPos < 0 → sl ≤ px →
      risk_heartbeat env false maxDaily st px ta =
        { orders := [OrderAct.targetPos 0]
          st := { st with
                  localPos := 0
                  avgPrice := 0
                  lastExitPrice := some px
                  lastExitTime := some env.now
                  reentryUntil := some (env.now + env.reentrySecs) }
          tradingAllowed := ta }) := by
  constructor
  · intro hpos hbr
    simp only [risk_heartbeat, hsl]
    rw [if_neg (by simp)]
    rw [if_pos (show st.localPos ≠ 0 ∧ sl ≠ 0 from ⟨by omega, hne⟩)]
    rw [if_pos ⟨hpos, hbr⟩]
  · intro hpos hbr
    simp only [risk_heartbeat, hsl]
    rw [if_neg (by simp)]
    rw [if_pos (show st.localPos ≠ 0 ∧ sl ≠ 0 from ⟨by omega, hne⟩)]
    rw [if_neg (fun hc => absurd hc.1 (by omega))]
    rw [if_pos ⟨hpos, hbr⟩]

/-- Witness for the amended C9 in both directions: long 2 lots at 550
with stop 548 hit at price 548, and short 2 lots at 550 with stop 552
hit at price 552 — flatten and reentry timer in each case, decision
kept. -/
theorem heartbeat_hard_stop_witness :
    (0 < hbState.localPos ∧ storedStop hbState = some 548 ∧ (548 : ℚ) ≠ 0 ∧
      (548 : ℚ) ≤ 548) ∧
    risk_heartbeat scenEnv false (1/20) hbState 548 true =
      { orders := [OrderAct.targetPos 0]
        st := { hbState with
                localPos := 0
                avgPrice := 0
                lastExitPrice := some 548
                lastExitTime := some scenEnv.now
                reentryUntil := some (scenEnv.now + scenEnv.reentrySecs) }
        tradingAllowed := true } ∧
    (hbShortState.localPos < 0 ∧ storedStop hbShortState = some 552 ∧ (552 : ℚ) ≠ 0 ∧
      (552 : ℚ) ≤ 552) ∧
    risk_heartbeat scenEnv false (1/20) hbShortState 552 true =
      { orders := [OrderAct.targetPos 0]
        st := { hbShortState with
                localPos := 0
                avgPrice := 0
                lastExitPrice := some 552
                lastExitTime := some scenEnv.now
                reentryUntil := some (scenEnv.now + scenEnv.reentrySecs) }
        tradingAllowed := true } := by
  have h1 : 0 < hbState.localPos := by norm_num [hbState, scenFlatState]
  have h2 : storedStop hbState = some 548 := by norm_num [storedStop, hbState, scenFlatState]
  have h3 : (548 : ℚ) ≠ 0 := by norm_num
  have h4 : (548 : ℚ) ≤ 548 := le_refl _
  have g1 : hbShortState.localPos < 0 := by norm_num [hbShortState, scenFlatState]
  have g2 : storedStop hbShortState = some 552 := by
    norm_num [storedStop, hbShortState, scenFlatState]
  have g3 : (552 : ℚ) ≠ 0 := by norm_num
  have g4 : (552 : ℚ) ≤ 552 := le_refl _
  exact ⟨⟨h1, h2, h3, h4⟩,
    (heartbeat_hard_stop scenEnv (1/20) hbState 548 true 548 h2 h3).1 h1 h4,
    ⟨g1, g2, g3, g4⟩,
    (heartbeat_hard_stop scenEnv (1/20) hbShortState 552 true 552 g2 g3).2 g1 g4⟩

/-- C9 counterexample: at the spec's own scenario the heartbeat flattens
and arms the reentry window but the stored decision and plan id survive —
the claimed clearing of decision and plan does not happen. -/
theorem heartbeat_keeps_decision_cex :
    (risk_heartbeat scenEnv false (1/20) hbState 548 true).orders = [OrderAct.targetPos 0] ∧
    (risk_heartbeat scenEnv false (1/20) hbState 548 true).st.reentryUntil = some 1120 ∧
    (risk_heartbeat scenEnv false (1/20) hbState 548 true).st.aiDecision =
      some { stopLoss := some 548, profitTarget := some 560 } ∧
    (risk_heartbeat scenEnv false (1/20) hbState 548 true).st.currentPlanId = some 7 ∧
    some { stopLoss := some (548:ℚ), profitTarget := some (560:ℚ) } ≠ (none : Option StoredDecision) := by
  refine ⟨?_, ?_, ?_, ?_, by simp⟩ <;>
    norm_num +decide [risk_heartbeat, storedStop, hbState, scenFlatState, scenEnv, estimateAccount]

/-- Witness for C6: two acquires and a release on a two-credential pool
keep the counters in bounds, and an acquire against `[1, 0]` returns the
idle credential 1. -/
theorem keypool_in_flight_cap_witness :
    (∀ x ∈ kpRun (List.replicate 2 (0 : ℤ)) [KpOp.acq, KpOp.acq, KpOp.rel 0], 0 ≤ x ∧ x ≤ 1) ∧
    (((1 : ℤ) :: (0 : ℤ) :: []).getD 1 1 ≤ 0) :=
  ⟨(keypool_in_flight_cap 2 [KpOp.acq, KpOp.acq, KpOp.rel 0]).1,
   (keypool_in_flight_cap 2 []).2 ((1 : ℤ) :: (0 : ℤ) :: []) 1 (by decide)⟩

end AITrader
